import Mathlib

/-!
Verification development for `diffrax/_autocitation.py`: the autogenerated-citation
engine.  The Python module is shallowly embedded: Python strings become `String`,
Python dicts of call arguments become association lists `List (String × V)` consumed
through lookup, fallible code returns `Except`, and the final `print` of the document
is modelled by returning the document (so an `Except.error` result means nothing is
printed, since the source prints only once, at the very end of `citation`).
External collaborators that live outside the embedded file (the `diffeqsolve`
parameter list, the `is_sde`/`is_cde` classifiers, the docstrings of solver classes,
`jax.__version__`) are abstracted as parameters, following the spec's "out of scope"
list; everything else is translated from the source.
-/

namespace Autocitation

deriving instance DecidableEq for Except

/-! ### Python string primitives (`str.strip`, `str.join`, `str.expandtabs`,
`str.split('\n')`, substring membership `in`) -/

/-- The ASCII whitespace characters stripped by Python's `str.strip()`/`str.lstrip()`.
(The docstrings processed by the module are ASCII, so the unicode cases are not
modelled.) -/
def isPySpace (c : Char) : Bool :=
  c = ' ' || c = '\t' || c = '\n' || c = '\r' || c = '\x0b' || c = '\x0c'

/-- `str.strip()` on the character list. -/
def pyStripChars (l : List Char) : List Char :=
  ((l.dropWhile isPySpace).reverse.dropWhile isPySpace).reverse

/-- Python `str.strip()`. -/
def pyStrip (s : String) : String :=
  ⟨pyStripChars s.data⟩

/-- Python `str.lstrip()`. -/
def pyLStrip (s : String) : String :=
  ⟨s.data.dropWhile isPySpace⟩

/-- Whether a string contains at least one non-whitespace character. -/
def hasNonWs (s : String) : Bool :=
  s.data.any (fun c => !isPySpace c)

/-- Python `sep.join(blocks)`. -/
def joinSep (sep : String) : List String → String
  | [] => ""
  | [s] => s
  | s :: rest => s ++ sep ++ joinSep sep rest

/-- Python `str.expandtabs()` (tab size 8; `\n` and `\r` reset the column). -/
def expandTabsChars : List Char → Nat → List Char
  | [], _ => []
  | c :: cs, col =>
    if c = '\t' then
      List.replicate (8 - col % 8) ' ' ++ expandTabsChars cs (col + (8 - col % 8))
    else if c = '\n' || c = '\r' then c :: expandTabsChars cs 0
    else c :: expandTabsChars cs (col + 1)

/-- Python `str.expandtabs()`. -/
def expandTabs (s : String) : String :=
  ⟨expandTabsChars s.data 0⟩

/-- Helper for `str.split('\n')`: `cur` is the current line, reversed. -/
def splitNLAux (cur : List Char) : List Char → List String
  | [] => [⟨cur.reverse⟩]
  | c :: cs => if c = '\n' then ⟨cur.reverse⟩ :: splitNLAux [] cs else splitNLAux (c :: cur) cs

/-- Python `str.split('\n')`. -/
def splitNL (s : String) : List String :=
  splitNLAux [] s.data

/-- Python substring membership `needle in hay`, on character lists. -/
def containsChars : List Char → List Char → Bool
  | [], needle => needle.isEmpty
  | c :: t, needle => needle.isPrefixOf (c :: t) || containsChars t needle

/-- Python substring membership `needle in hay`. -/
def containsSub (hay needle : String) : Bool :=
  containsChars hay.data needle.data

/-! ### `inspect.cleandoc` -/

/-- The indentation (in characters) of a line, or `none` for a blank line;
mirrors `content = len(line.lstrip()); if content: indent = len(line) - content`. -/
def lineIndent? (line : String) : Option Nat :=
  let stripped := line.data.dropWhile isPySpace
  if stripped.isEmpty then none else some (line.data.length - stripped.length)

/-- The minimum indentation of the non-blank lines (the `margin` loop of
`cleandoc`, with `none` playing the role of `sys.maxsize`). -/
def minMargin (lines : List String) : Option Nat :=
  lines.foldl
    (fun acc line =>
      match lineIndent? line with
      | none => acc
      | some i => match acc with
        | none => some i
        | some m => some (min m i))
    none

/-- `while lines and not lines[-1]: lines.pop()`. -/
def dropBlankEnd (lines : List String) : List String :=
  (lines.reverse.dropWhile (fun l => l = "")).reverse

/-- `while lines and not lines[0]: lines.pop(0)`. -/
def dropBlankStart (lines : List String) : List String :=
  lines.dropWhile (fun l => l = "")

/-- `inspect.cleandoc`: expand tabs, split into lines, dedent the lines after the
first by their common indentation, `lstrip` the first line, remove trailing then
leading blank lines, and rejoin. -/
def cleandoc (doc : String) : String :=
  match splitNL (expandTabs doc) with
  | [] => ""
  | first :: rest =>
    let margin := minMargin rest
    let first2 : String := ⟨first.data.dropWhile isPySpace⟩
    let rest2 : List String :=
      match margin with
      | none => rest
      | some m => rest.map (fun l => ⟨l.data.drop m⟩)
    joinSep "\n" (dropBlankStart (dropBlankEnd (first2 :: rest2)))

/-! ### `_reference_regex.findall`: the pattern is `r"```bibtex([^`]*)```"`.
`re.findall` scans left to right; at each position the match is deterministic
because `[^`]*` is greedy and cannot consume a backtick, so it takes the maximal
backtick-free run and the close fence must follow immediately. -/

/-- Consume an exact literal prefix, returning the remaining characters. -/
def dropLit : List Char → List Char → Option (List Char)
  | [], s => some s
  | _ :: _, [] => none
  | p :: ps, c :: cs => if p = c then dropLit ps cs else none

/-- Attempt the pattern at the start of `s`; on success return the captured group
and the characters after the match. -/
def matchAt (s : List Char) : Option (List Char × List Char) :=
  match dropLit "```bibtex".data s with
  | none => none
  | some s1 =>
    match dropLit "```".data (s1.dropWhile (fun c => c ≠ '`')) with
    | none => none
    | some s3 => some (s1.takeWhile (fun c => c ≠ '`'), s3)

theorem dropLit_length {ps s t : List Char} (h : dropLit ps s = some t) :
    t.length + ps.length = s.length := by
  induction ps generalizing s with
  | nil => cases s <;> simp [dropLit] at h <;> simp [h]
  | cons p ps ih =>
    cases s with
    | nil => simp [dropLit] at h
    | cons c cs =>
      simp only [dropLit] at h
      split at h
      · have := ih h
        simp [List.length_cons, ← this]
        omega
      · exact absurd h (by simp)

theorem dropWhile_length_le {α : Type} (p : α → Bool) (l : List α) :
    (l.dropWhile p).length ≤ l.length := by
  induction l with
  | nil => simp [List.dropWhile]
  | cons c cs ih =>
    simp only [List.dropWhile]
    split
    · exact Nat.le_trans ih (Nat.le_succ _)
    · exact Nat.le_refl _

theorem matchAt_length {s : List Char} {cap rest : List Char}
    (h : matchAt s = some (cap, rest)) : rest.length < s.length := by
  unfold matchAt at h
  cases h1 : dropLit "```bibtex".data s with
  | none => simp [h1] at h
  | some s1 =>
    rw [h1] at h
    dsimp only at h
    cases h2 : dropLit "```".data (s1.dropWhile (fun c => c ≠ '`')) with
    | none => rw [h2] at h; exact absurd h (by simp)
    | some s3 =>
      rw [h2] at h
      dsimp only at h
      have hl1 := dropLit_length h1
      have hl2 := dropLit_length h2
      have hdw : (s1.dropWhile (fun c => c ≠ '`')).length ≤ s1.length :=
        dropWhile_length_le _ _
      have hrest : s3 = rest := by
        have := h
        simp only [Option.some.injEq, Prod.mk.injEq] at this
        exact this.2
      subst hrest
      have h9 : ("```bibtex".data).length = 9 := by decide
      have h3 : ("```".data).length = 3 := by decide
      omega

/-- `re.findall` for the reference pattern: on a failed attempt advance one
character, on a success continue after the consumed match.  Structural recursion
on a fuel bounded by the text length (a successful match consumes at least the
two fences, see `matchAt_length`), so that the scan is kernel-evaluable. -/
def findRefsAux : Nat → List Char → List (List Char)
  | 0, _ => []
  | _ + 1, [] => []
  | fuel + 1, c :: cs =>
    match matchAt (c :: cs) with
    | some (cap, rest) => cap :: findRefsAux fuel rest
    | none => findRefsAux fuel cs

def findRefs (s : List Char) : List (List Char) :=
  findRefsAux s.length s

/-! ### Error taxonomy.  `BindErr` models the `TypeError`s raised by
`Signature.bind_partial`; `RuleErr` models exceptions escaping a rule body
(`ValueError` from tuple unpacking in `_parse_reference`/`_parse_reference_multi`
call sites, `AssertionError`, the `RuntimeError` raised by `_no_tracer`, and the
`TypeError`/`AttributeError` a rule body would raise on malformed arguments). -/

inductive BindErr where
  | tooManyPositional
  | multipleValues (name : String)
  | unexpectedKeyword (name : String)
deriving DecidableEq, Repr

inductive RuleErr where
  | valueErr
  | assertionFailed
  | runtime (msg : String)
  | missingArg (name : String)
  | attributeErr
deriving DecidableEq, Repr

inductive CiteErr where
  | binding (e : BindErr)
  | rule (e : RuleErr)
deriving DecidableEq, Repr

/-- `_parse_reference_multi(obj)` as a function of `obj.__doc__`: all matches of
the reference pattern, each passed through `inspect.cleandoc`. -/
def _parse_reference_multi (doc : String) : List String :=
  (findRefs doc.data).map (fun cs => cleandoc ⟨cs⟩)

/-- `_parse_reference(obj)` as a function of `obj.__doc__`: the single-extraction
variant; `[reference] = [...]` raises `ValueError` unless there is exactly one
match. -/
def _parse_reference (doc : String) : Except RuleErr String :=
  match _parse_reference_multi doc with
  | [r] => Except.ok r
  | _ => Except.error RuleErr.valueErr

/-! ### The rule registry and dispatcher (`citation`, lines 95-126). -/

/-- A declared (POSITIONAL_OR_KEYWORD) parameter of a rule: its name and whether
it has a default. -/
structure Param where
  name : String
  hasDefault : Bool
deriving DecidableEq, Repr

/-- A registered rule: its named parameters, whether it declares a VAR_KEYWORD
parameter (`has_var` in the source), and its body.  The body consumes the
keyword-argument dict it is invoked with, represented by its lookup function. -/
structure Rule (V : Type) where
  params : List Param
  hasVar : Bool
  run : (String → Option V) → Except RuleErr (Option String)

/-- `needed_keys`: the names of the declared parameters without a default. -/
def neededKeys (ps : List Param) : List String :=
  (ps.filter (fun p => !p.hasDefault)).map Param.name

/-- Dict lookup on an association list (first match). -/
def alookup {V : Type} (ks : List (String × V)) (n : String) : Option V :=
  (ks.find? (fun kv => kv.1 == n)).map Prod.snd

/-- The key set of the canonical argument map. -/
def mapKeys {V : Type} (ks : List (String × V)) : List String :=
  ks.map Prod.fst

/-- `set(kwargs).issuperset(needed_keys)`: the rule's admission test. -/
def admitted {V : Type} (r : Rule V) (ks : List (String × V)) : Bool :=
  (neededKeys r.params).all (fun n => (alookup ks n).isSome)

/-- The dict comprehension
`{param.name: kwargs[param.name] for param in rule_parameters if param.name in kwargs}`. -/
def restrictArgs {V : Type} (ps : List Param) (ks : List (String × V)) :
    List (String × V) :=
  ps.filterMap (fun p => (alookup ks p.name).map (fun v => (p.name, v)))

/-- The keyword arguments a rule is invoked with (`rulekwargs`): the full map if
it declares VAR_KEYWORD, else the restriction to its declared parameter names. -/
def ruleArgsFun {V : Type} (r : Rule V) (ks : List (String × V)) :
    String → Option V :=
  if r.hasVar then alookup ks else alookup (restrictArgs r.params ks)

/-- One iteration of the dispatch loop: skip silently if not admitted, otherwise
invoke the rule and append `cite.strip()` when the result is not `None`. -/
def processRule {V : Type} (ks : List (String × V)) (acc : List String)
    (r : Rule V) : Except RuleErr (List String) :=
  if admitted r ks then
    match r.run (ruleArgsFun r ks) with
    | Except.error e => Except.error e
    | Except.ok none => Except.ok acc
    | Except.ok (some c) => Except.ok (acc ++ [pyStrip c])
  else Except.ok acc

/-- The dispatch loop over the registered rules, in registration order. -/
def runRulesAux {V : Type} (ks : List (String × V)) :
    List (Rule V) → List String → Except RuleErr (List String)
  | [], acc => Except.ok acc
  | r :: rs, acc =>
    match processRule ks acc r with
    | Except.error e => Except.error e
    | Except.ok acc2 => runRulesAux ks rs acc2

/-! ### The argument binder (`_diffeqsignature.bind_partial` plus the loop that
rebuilds `kwargs`, lines 95-98).  `P` is the canonical ordered parameter list of
`diffeqsolve` (an external collaborator, hence a parameter of the model).
`bind_partial` processes the positional arguments first — raising
`too many positional arguments` when they overflow `P` and
`multiple values for argument` when a positionally-assigned name is also given
by keyword — and then rejects any keyword name not in `P`. -/

def bindPositional {V : Type} : List String → List V → List (String × V) →
    Except BindErr (List (String × V))
  | _, [], _ => Except.ok []
  | [], _ :: _, _ => Except.error BindErr.tooManyPositional
  | p :: ps, a :: as_, kwargs =>
    if (alookup kwargs p).isSome then Except.error (BindErr.multipleValues p)
    else
      match bindPositional ps as_ kwargs with
      | Except.error e => Except.error e
      | Except.ok rest => Except.ok ((p, a) :: rest)

def checkKw {V : Type} (P : List String) : List (String × V) → Except BindErr Unit
  | [] => Except.ok ()
  | (n, _) :: rest =>
    if n ∈ P then checkKw P rest else Except.error (BindErr.unexpectedKeyword n)

/-- The canonical argument map built by `citation`: `dict(bound.kwargs)` updated
with the positionally-bound values — i.e. every bound parameter, looked up by
name. -/
def bindArgs {V : Type} (P : List String) (args : List V)
    (kwargs : List (String × V)) : Except BindErr (List (String × V)) :=
  match bindPositional P args kwargs with
  | Except.error e => Except.error e
  | Except.ok pos =>
    match checkKw P kwargs with
    | Except.error e => Except.error e
    | Except.ok _ => Except.ok (pos ++ kwargs)

/-! ### Domain model.  The values carried in the canonical argument map are
arbitrary Python objects; `PyVal` captures the observations the rule bodies make
of them (exact-type tests, `isinstance` tests against the abstract solver
classes, pytree leaves, attribute reads).  A value of any other shape — on which
every such test is false — is `otherV`.  Pytrees of terms are modelled as a
binary rose tree of leaves (`jtu.tree_leaves` only ever feeds the rules the flat
leaf list). -/

/-- A pytree leaf, as observed by the rules: a `VirtualBrownianTree` (with its
`levy_area` attribute), some other `AbstractBrownianPath`, the
`adjoint_rms_seminorm` function object, or anything else. -/
inductive LeafKind where
  | vbt (levyArea : String)
  | brownian (levyArea : String)
  | seminorm
  | plain
deriving DecidableEq, Repr

inductive PyTree where
  | leaf (k : LeafKind)
  | nodeNil
  | nodeCons (head tail : PyTree)
deriving DecidableEq, Repr

/-- `jtu.tree_leaves` on a term tree. -/
def leavesOf : PyTree → List LeafKind
  | PyTree.leaf k => [k]
  | PyTree.nodeNil => []
  | PyTree.nodeCons h t => leavesOf h ++ leavesOf t

/-- A JAX scalar: either a concrete number (only its comparison against zero is
ever observed, so the payload is its integer value) or a `jax.core.Tracer`. -/
inductive JaxVal where
  | conc (x : Int)
  | tracer
deriving DecidableEq, Repr

/-- A `PIDController` instance: the two coefficient fields read by
`_pid_controller`. -/
structure PIDC where
  pcoeff : JaxVal
  dcoeff : JaxVal
deriving DecidableEq, Repr

inductive AdjointTy where
  | backsolve
  | recursiveCheckpoint
  | direct
  | otherAdj
deriving DecidableEq, Repr

/-- An adjoint object: its exact type, and its pytree leaves (read by
`_backsolve_rms_norm` through `jtu.tree_leaves(adjoint)`). -/
structure Adjoint where
  ty : AdjointTy
  leaves : List LeafKind
deriving DecidableEq, Repr

inductive SolverTy where
  | tsit5
  | kvaerno3
  | kvaerno4
  | kvaerno5
  | reversibleHeun
  | leapfrogMidpoint
  | shark
  | sra1
  | slowRK
  | generalShark
  | spark
  | sea
  | dopri5
  | dopri8
  | semiImplicitEuler
  | otherSolver
deriving DecidableEq, Repr

/-- A solver object: its exact class, the `isinstance` facts against the four
abstract solver classes, and its class docstring (read by
`_parse_reference(solver)`). -/
structure Solver where
  ty : SolverTy
  isImplicit : Bool
  isSRK : Bool
  isIto : Bool
  isStrat : Bool
  doc : String
deriving DecidableEq, Repr

/-- A `SaveAt` object as observed by the Dopri8 branch of `_solvers`:
its `dense` flag and, for each `SubSaveAt` leaf, whether `ts is not None`. -/
structure SaveAtV where
  dense : Bool
  subsTs : List Bool
deriving DecidableEq, Repr

inductive PyVal where
  | vnone
  | tree (t : PyTree)
  | adjointV (a : Adjoint)
  | solverV (s : Solver)
  | saveatV (s : SaveAtV)
  | pid (c : PIDC)
  | otherV
deriving DecidableEq, Repr

/-- The external collaborators the rule bodies consult: `jax.__version__`, the
docstrings of `VirtualBrownianTree`, `Dopri5`, `Dopri8` and
`adjoint_rms_seminorm` (all defined outside the embedded file), and the opaque
classifiers `is_sde`/`is_cde` from `_heuristics` (per the spec, "treated as
opaque boolean classifiers supplied to rules"). -/
structure Env where
  jaxVersion : String
  vbtDoc : String
  dopri5Doc : String
  dopri8Doc : String
  seminormDoc : String
  is_sde : PyVal → Bool
  is_cde : PyVal → Bool

/-- `jtu.tree_leaves` applied to a canonical-map value: `None` is an empty
pytree, a term tree contributes its leaves, and any other object is itself a
single (non-special) leaf. -/
def pyLeaves : PyVal → List LeafKind
  | PyVal.vnone => []
  | PyVal.tree t => leavesOf t
  | _ => [LeafKind.plain]

/-- `is_vbt = lambda x: isinstance(x, VirtualBrownianTree)`. -/
def is_vbt : LeafKind → Bool
  | LeafKind.vbt _ => true
  | _ => false

/-- `has_levy_area = lambda x: isinstance(x, AbstractBrownianPath) and x.levy_area != ""`. -/
def has_levy_area : LeafKind → Bool
  | LeafKind.vbt la => la ≠ ""
  | LeafKind.brownian la => la ≠ ""
  | _ => false

/-- `isinstance(solver, (AbstractImplicitSolver, AbstractSRK, AbstractItoSolver,
AbstractStratonovichSolver))`. -/
def isinstanceSolverAbcs : PyVal → Bool
  | PyVal.solverV s => s.isImplicit || s.isSRK || s.isIto || s.isStrat
  | _ => false

/-- `isinstance(solver, AbstractImplicitSolver)`. -/
def isImplicitInstance : PyVal → Bool
  | PyVal.solverV s => s.isImplicit
  | _ => false

/-- `type(solver) is SemiImplicitEuler`. -/
def isSemiImplicitEuler : PyVal → Bool
  | PyVal.solverV s => s.ty = SolverTy.semiImplicitEuler
  | _ => false

/-- `solver.__class__.__name__` for the solver classes named in the tuple of the
first branch of `_solvers` (the only place the name is read). -/
def solverName : SolverTy → String
  | SolverTy.tsit5 => "Tsit5"
  | SolverTy.kvaerno3 => "Kvaerno3"
  | SolverTy.kvaerno4 => "Kvaerno4"
  | SolverTy.kvaerno5 => "Kvaerno5"
  | SolverTy.reversibleHeun => "ReversibleHeun"
  | SolverTy.leapfrogMidpoint => "LeapfrogMidpoint"
  | SolverTy.shark => "ShARK"
  | SolverTy.sra1 => "SRA1"
  | SolverTy.slowRK => "SlowRK"
  | SolverTy.generalShark => "GeneralShARK"
  | SolverTy.spark => "SPaRK"
  | SolverTy.sea => "SEA"
  | SolverTy.dopri5 => "Dopri5"
  | SolverTy.dopri8 => "Dopri8"
  | SolverTy.semiImplicitEuler => "SemiImplicitEuler"
  | SolverTy.otherSolver => ""

/-- A Python object in boolean context, as needed by the Dopri8 branch of
`_solvers`: either an actual `bool`, or a generator object (which is always
truthy, whatever it would yield). -/
inductive PyTruthObj where
  | pyBool (b : Bool)
  | pyGenerator (items : List Bool)
deriving DecidableEq, Repr

/-- Python truthiness: `bool(x)`.  A generator object is truthy. -/
def pyTruthy : PyTruthObj → Bool
  | PyTruthObj.pyBool b => b
  | PyTruthObj.pyGenerator _ => true

/-- Python `x or y`: `x` if truthy, else `y`. -/
def pyOr (a b : PyTruthObj) : PyTruthObj :=
  if pyTruthy a then a else b

/-- Tuple unpacking `a, b = l`: `ValueError` unless the list has exactly two
elements. -/
def unpack2 (l : List String) : Except RuleErr (String × String) :=
  match l with
  | [a, b] => Except.ok (a, b)
  | _ => Except.error RuleErr.valueErr

/-- The message of the `RuntimeError` raised by `_no_tracer` (lines 173-178). -/
def tracerMsg (name : String) : String :=
  "`diffrax.citation` was called with " ++ name ++
    " as a traced JAX value. Try running again without this, e.g. using `jax.disable_jit()`."

/-- The result of `x == 0` on a JAX scalar: a bool for a concrete value, and a
traced (tracer) value when `x` is a tracer. -/
inductive PyBoolLike where
  | b (x : Bool)
  | tracer
deriving DecidableEq, Repr

def eqZero : JaxVal → PyBoolLike
  | JaxVal.conc x => PyBoolLike.b (x == 0)
  | JaxVal.tracer => PyBoolLike.tracer

/-- `_no_tracer(x, name)` (lines 173-178). -/
def _no_tracer (x : PyBoolLike) (name : String) : Except RuleErr Unit :=
  match x with
  | PyBoolLike.tracer => Except.error (RuleErr.runtime (tracerMsg name))
  | PyBoolLike.b _ => Except.ok ()

/-- `bool()` of a checked value; only applied after `_no_tracer` has passed. -/
def pyBoolVal : PyBoolLike → Bool
  | PyBoolLike.b x => x
  | PyBoolLike.tracer => false

/-! ### The literal reference texts of the source, transcribed verbatim (braces written as escapes). -/

def thesisRaw : String :=
  "\nphdthesis\x7bkidger2021on,\n    title=\x7b\x7bO\x7dn \x7bN\x7deural \x7bD\x7differential \x7bE\x7dquations\x7d,\n    author=\x7bPatrick Kidger\x7d,\n    year=\x7b2021\x7d,\n    school=\x7bUniversity of Oxford\x7d,\n\x7d\n"

def startRaw : String :=
  "\n% --- AUTOGENERATED REFERENCES PRODUCED USING `diffrax.citation(...)` ---\n% The following references were found for the numerical techniques being used.\n% This does not cover e.g. any modelling techniques being used.\n% If you think a paper is missing from here then open an issue or pull request at\n% https://github.com/patrick-kidger/diffrax\n"

def endRaw : String :=
  "\n% --- END AUTOGENERATED REFERENCES ---\n"

def diffraxLit1 : String :=
  "\n% You are using Diffrax, which is citable as:\n"

def diffraxLit2 : String :=
  "\n\n% You are using Equinox, which is citable as:\n@article\x7bkidger2021equinox,\n    author=\x7bPatrick Kidger and Cristian Garcia\x7d,\n    title=\x7b\x7bE\x7dquinox: neural networks in \x7bJAX\x7d via callable \x7bP\x7dy\x7bT\x7drees and\n           filtered transformations\x7d,\n    year=\x7b2021\x7d,\n    journal=\x7bDifferentiable Programming workshop at Neural Information Processing\n             Systems 2021\x7d\n\x7d\n\n% You are using JAX, which is citable as:\n@software\x7bjax2018github,\n  author = \x7bJames Bradbury and Roy Frostig and Peter Hawkins and Matthew James Johnson\n            and Chris Leary and Dougal Maclaurin and George Necula and Adam Paszke and\n            Jake Vander\x7bP\x7dlas and Skye Wanderman-\x7bM\x7dilne and Qiao Zhang\x7d,\n  title = \x7b\x7bJAX\x7d: composable transformations of \x7bP\x7dython+\x7bN\x7dum\x7bP\x7dy programs\x7d,\n  url = \x7bhttp://github.com/google/jax\x7d,\n  version = \x7b"

def diffraxLit3 : String :=
  "\x7d,\n  year = \x7b2018\x7d,\n\x7d\n"

def backsolveSdeLit1 : String :=
  "\n    % You are backpropagating through an SDE using optimise-then-discretise\n    % (`adjoint=BacksolveAdjoint(...)`)\n    % This technique was introduced in \n    "

def backsolveSdeLit2 : String :=
  "\n    % This technique was refined (simplified via rough path theory) in Section 5.2.3 of:\n    "

def backsolveCdeLit : String :=
  "\n    % You are backpropagating through a CDE using optimise-then-discretise\n    % (`adjoint=BacksolveAdjoint(...)`)\n    % This technique was introduced in Section 5.2.2 of:\n    "

def backsolveOdeLit : String :=
  "\n% You are backpropagating through an ODE using optimise-then-discretise\n%  (`adjoint=BacksolveAdjoint(...)`)\n% Many references exist for this technique. For example:\n@article\x7bchen2018neuralode,\n  title=\x7bNeural Ordinary Differential Equations\x7d,\n  author=\x7bChen, Ricky T. Q. and Rubanova, Yulia and Bettencourt, Jesse and Duvenaud,\n          David\x7d,\n  journal=\x7bAdvances in Neural Information Processing Systems\x7d,\n  year=\x7b2018\x7d\n\x7d\n% In addition, the most modern (6-line) proof of this result can be found in Section\n5.1.2.1 of:\n"

def discreteLit1 : String :=
  "\n% You are differentiating using discretise-then-optimise.\n"

def discreteLit2 : String :=
  "\n% If using forward-mode autodifferentiation, then this was studied in:\n@inproceedings\x7bma2021comparison,\n  title=\x7bA Comparison of Automatic Differentiation and Continuous Sensitivity Analysis\n         for Derivatives of Differential Equation Solutions\x7d, \n  author=\x7bMa, Yingbo and Dixit, Vaibhav and Innes, Michael J and Guo, Xingjian and\n          Rackauckas, Chris\x7d,\n  booktitle=\x7b2021 IEEE High Performance Extreme Computing Conference (HPEC)\x7d, \n  year=\x7b2021\x7d,\n  pages=\x7b1-9\x7d,\n  doi=\x7b10.1109/HPEC49654.2021.9622796\x7d\n\x7d\n"

def discreteLit3 : String :=
  "\n% If using reverse-mode autodifferentiation (backpropagation), then you are using\n% online recursive checkpointing in order to minimise memory usage. This was developed\n% in:\n@article\x7bstumm2010new,\n    author = \x7bStumm, Philipp and Walther, Andrea\x7d,\n    title = \x7bNew Algorithms for Optimal Online Checkpointing\x7d,\n    journal = \x7bSIAM Journal on Scientific Computing\x7d,\n    volume = \x7b32\x7d,\n    number = \x7b2\x7d,\n    pages = \x7b836--854\x7d,\n    year = \x7b2010\x7d,\n    doi = \x7b10.1137/080742439\x7d,\n\x7d\n@article\x7bwang2009minimal,\n    author = \x7bWang, Qiqi and Moin, Parviz and Iaccarino, Gianluca\x7d,\n    title = \x7bMinimal Repetition Dynamic Checkpointing Algorithm for Unsteady\n             Adjoint Calculation\x7d,\n    journal = \x7bSIAM Journal on Scientific Computing\x7d,\n    volume = \x7b31\x7d,\n    number = \x7b4\x7d,\n    pages = \x7b2549--2567\x7d,\n    year = \x7b2009\x7d,\n    doi = \x7b10.1137/080727890\x7d,\n\x7d\n\n% In addition, the equivalent offline recursive checkpointing scheme (also known as\n% \"treeverse\", \"binary checkpointing\", or \"revolve\") was developed in:\n@article\x7bgriewank1992achieving,\n    author = \x7bGriewank, Andreas\x7d,\n    title = \x7bAchieving logarithmic growth of temporal and spatial complexity in\n             reverse automatic differentiation\x7d,\n    journal = \x7bOptimization Methods and Software\x7d,\n    volume = \x7b1\x7d,\n    number = \x7b1\x7d,\n    pages = \x7b35--54\x7d,\n    year  = \x7b1992\x7d,\n    publisher = \x7bTaylor & Francis\x7d,\n    doi = \x7b10.1080/10556789208805505\x7d,\n\x7d\n@article\x7bgriewank2000revolve,\n    author = \x7bGriewank, Andreas and Walther, Andrea\x7d,\n    title = \x7bAlgorithm 799: Revolve: An Implementation of Checkpointing for the\n             Reverse or Adjoint Mode of Computational Differentiation\x7d,\n    year = \x7b2000\x7d,\n    publisher = \x7bAssociation for Computing Machinery\x7d,\n    volume = \x7b26\x7d,\n    number = \x7b1\x7d,\n    doi = \x7b10.1145/347837.347846\x7d,\n    journal = \x7bACM Trans. Math. Softw.\x7d,\n    pages = \x7b19--45\x7d,\n\x7d\n"

def vbtLit : String :=
  "\n% You are simulating Brownian motion using a virtual Brownian tree, which was introduced\n% in:\n"

def levyLit : String :=
  "\n% You are simulating Brownian motion using space-time Levy area, the formulae for which\n% were developed in:\n"

def seminormLit : String :=
  "\n% You are backpropagating using adjoint seminorms, which was introduced in::\n"

def explicitLit : String :=
  "\n% You are using an explicit solver, and may wish to cite the standard textbook:\n@book\x7bhairer2008solving-i,\n  address=\x7bBerlin\x7d,\n  author=\x7bHairer, E. and N\x7b\\o\x7drsett, S.P. and Wanner, G.\x7d,\n  edition=\x7bSecond Revised Edition\x7d,\n  publisher=\x7bSpringer\x7d,\n  title=\x7b\x7bS\x7dolving \x7bO\x7drdinary \x7bD\x7differential \x7bE\x7dquations \x7bI\x7d \x7bN\x7donstiff\n         \x7bP\x7droblems\x7d,\n  year=\x7b2008\x7d\n\x7d\n"

def implicitLit : String :=
  "\n% You are using an implicit solver, and may wish to cite the standard textbook:\n@book\x7bhairer2002solving-ii,\n  address=\x7bBerlin\x7d,\n  author=\x7bHairer, E. and Wanner, G.\x7d,\n  edition=\x7bSecond Revised Edition\x7d,\n  publisher=\x7bSpringer\x7d,\n  title=\x7b\x7bS\x7dolving \x7bO\x7drdinary \x7bD\x7differential \x7bE\x7dquations \x7bII\x7d \x7bS\x7dtiff and\n         \x7bD\x7differential-\x7bA\x7dlgebraic \x7bP\x7droblems\x7d,\n  year=\x7b2002\x7d\n\x7d\n"

def symplecticLit : String :=
  "\nYou are using a symplectic solver, and may wish to cite the textbook:\n@book\x7bhairer2013geometric,\n  title=\x7bGeometric Numerical Integration: Structure-Preserving Algorithms for Ordinary\n         Differential Equations\x7d,\n  author=\x7bHairer, E. and Lubich, C. and Wanner, G.\x7d,\n  isbn=\x7b9783662050187\x7d,\n  series=\x7bSpringer Series in Computational Mathematics\x7d,\n  year=\x7b2013\x7d,\n  publisher=\x7bSpringer Berlin Heidelberg\x7d\n\x7d\n\n"

def cdeLit : String :=
  "\n% You are solving a CDE. These were studied in:\n@incollection\x7bkidger2020neuralcde,\n    title=\x7bNeural Controlled Differential Equations for Irregular Time Series\x7d,\n    author=\x7bKidger, Patrick and Morrill, James and Foster, James and Lyons, Terry\x7d,\n    booktitle=\x7bAdvances in Neural Information Processing Systems\x7d,\n    publisher=\x7bCurran Associates, Inc.\x7d,\n    year=\x7b2020\x7d,\n\x7d\n"

def sdeLit : String :=
  "\n% You are solving an SDE, and may wish to cite the textbook:\n@book\x7bkloeden2011numerical,\n  title=\x7bNumerical Solution of Stochastic Differential Equations\x7d,\n  author=\x7bKloeden, P.E. and Platen, E.\x7d,\n  isbn=\x7b9783540540625\x7d,\n  series=\x7bStochastic Modelling and Applied Probability\x7d,\n  year=\x7b2011\x7d,\n  publisher=\x7bSpringer Berlin Heidelberg\x7d\n\x7d\n"

def solversLit1 : String :=
  "\n% You are using the "

def solversLit2 : String :=
  " solver, which was introduced in:\n"

def dopri5Lit1 : String :=
  "\n% Dormand--Prince 5(4) was introduced in:\n"

def dopri5Lit2 : String :=
  "\n% The specific implementation used here is the improved version (different Butcher\n% tableau) introduced in:\n"

def dopri8Lit1 : String :=
  "\n% Dormand--Prince 8(7) was introduced in:\n"

def dopri8Lit2 : String :=
  "\n% Output via `SaveAt(ts=...)` or `SaveAt(dense=True)` is done using the\n% Dormand--Prince 8(7) interpolant introduced in:\n"

def dt0Lit : String :=
  "\n% Automatic selection of initial step size is from Section II.4 of:\n@book\x7bhairer2008solving-i,\n  address=\x7bBerlin\x7d,\n  author=\x7bHairer, E. and N\x7b\\o\x7drsett, S.P. and Wanner, G.\x7d,\n  edition=\x7bSecond Revised Edition\x7d,\n  publisher=\x7bSpringer\x7d,\n  title=\x7b\x7bS\x7dolving \x7bO\x7drdinary \x7bD\x7differential \x7bE\x7dquations \x7bI\x7d \x7bN\x7donstiff\n         \x7bP\x7droblems\x7d,\n  year=\x7b2008\x7d\n\x7d\n"

def pidSdeLit : String :=
  "\n% The use of PI and PI controllers to adapt step sizes for SDEs are from:\n@article\x7bburrage2004adaptive,\n  title=\x7bAdaptive stepsize based on control theory for stochastic\n         differential equations\x7d,\n  journal=\x7bJournal of Computational and Applied Mathematics\x7d,\n  volume=\x7b170\x7d,\n  number=\x7b2\x7d,\n  pages=\x7b317--336\x7d,\n  year=\x7b2004\x7d,\n  doi=\x7bhttps://doi.org/10.1016/j.cam.2004.01.027\x7d,\n  author=\x7bP.M. Burrage and R. Herdiana and K. Burrage\x7d,\n\x7d\n@article\x7bilie2015adaptive,\n  author=\x7bIlie, Silvana and Jackson, Kenneth R. and Enright, Wayne H.\x7d,\n  title=\x7b\x7bA\x7ddaptive \x7bT\x7dime-\x7bS\x7dtepping for the \x7bS\x7dtrong \x7bN\x7dumerical \x7bS\x7dolution\n         of \x7bS\x7dtochastic \x7bD\x7differential \x7bE\x7dquations\x7d,\n  year=\x7b2015\x7d,\n  publisher=\x7bSpringer-Verlag\x7d,\n  address=\x7bBerlin, Heidelberg\x7d,\n  volume=\x7b68\x7d,\n  number=\x7b4\x7d,\n  doi=\x7bhttps://doi.org/10.1007/s11075-014-9872-6\x7d,\n  journal=\x7bNumer. Algorithms\x7d,\n  pages=\x7b791–-812\x7d,\n\x7d\n"

def pidILit : String :=
  "\n% The use of an I-controller to adapt step sizes is from Section II.4 of:\n@book\x7bhairer2008solving-i,\n  address=\x7bBerlin\x7d,\n  author=\x7bHairer, E. and N\x7b\\o\x7drsett, S.P. and Wanner, G.\x7d,\n  edition=\x7bSecond Revised Edition\x7d,\n  publisher=\x7bSpringer\x7d,\n  title=\x7b\x7bS\x7dolving \x7bO\x7drdinary \x7bD\x7differential \x7bE\x7dquations \x7bI\x7d \x7bN\x7donstiff\n         \x7bP\x7droblems\x7d,\n  year=\x7b2008\x7d\n\x7d\n"

def pidPILit : String :=
  "\n% The use of a PI-controller to adapt step sizes is from Section IV.2 of:\n@book\x7bhairer2002solving-ii,\n  address=\x7bBerlin\x7d,\n  author=\x7bHairer, E. and Wanner, G.\x7d,\n  edition=\x7bSecond Revised Edition\x7d,\n  publisher=\x7bSpringer\x7d,\n  title=\x7b\x7bS\x7dolving \x7bO\x7drdinary \x7bD\x7differential \x7bE\x7dquations \x7bII\x7d \x7bS\x7dtiff and\n         \x7bD\x7differential-\x7bA\x7dlgebraic \x7bP\x7droblems\x7d,\n  year=\x7b2002\x7d\n\x7d\n% and Sections 1--3 of:\n@article\x7bsoderlind2002automatic,\n    title=\x7bAutomatic control and adaptive time-stepping\x7d,\n    author=\x7bGustaf S\x7b\\\"o\x7dderlind\x7d,\n    year=\x7b2002\x7d,\n    journal=\x7bNumerical Algorithms\x7d,\n    volume=\x7b31\x7d,\n    pages=\x7b281--310\x7d\n\x7d\n"

def pidPIDLit : String :=
  "\n% The use of a PID controller to adapt step sizes is from:\n@article\x7bsoderlind2003digital,\n    title=\x7b\x7bD\x7digital \x7bF\x7dilters in \x7bA\x7ddaptive \x7bT\x7dime-\x7bS\x7dtepping,\n    author=\x7bGustaf S\x7b\\\"o\x7dderlind\x7d,\n    year=\x7b2003\x7d,\n    journal=\x7bACM Transactions on Mathematical Software\x7d,\n    volume=\x7b20\x7d,\n    number=\x7b1\x7d,\n    pages=\x7b1--26\x7d\n\x7d\n"

/-- `_thesis_cite` (lines 135-142). -/
def _thesis_cite : String := pyStrip thesisRaw

/-- `_start` (lines 144-150). -/
def _start : String := pyStrip startRaw

/-- `_end` (lines 152-154). -/
def _end : String := pyStrip endRaw

/-! ### The rule bodies, in registration order (each `@citation_rules.append`). -/

/-- Rule `_diffrax()` (lines 181-213). -/
def _diffrax (env : Env) : Except RuleErr (Option String) :=
  Except.ok (some (diffraxLit1 ++ _thesis_cite ++ diffraxLit2 ++ env.jaxVersion ++ diffraxLit3))

/-- Rule `_backsolve_adjoint(adjoint, terms=None)` (lines 216-259). -/
def _backsolve_adjoint (env : Env) (adjoint terms : PyVal) :
    Except RuleErr (Option String) :=
  match adjoint with
  | PyVal.adjointV a =>
    if a.ty = AdjointTy.backsolve then
      if env.is_sde terms then
        match unpack2 (_parse_reference_multi env.vbtDoc) with
        | Except.error e => Except.error e
        | Except.ok (vbt_ref, _) =>
          Except.ok (some (backsolveSdeLit1 ++ vbt_ref ++ backsolveSdeLit2 ++ _thesis_cite))
      else if env.is_cde terms then
        Except.ok (some (backsolveCdeLit ++ _thesis_cite))
      else
        Except.ok (some (backsolveOdeLit ++ _thesis_cite))
    else Except.ok none
  | _ => Except.ok none

/-- Rule `_discrete_adjoint(adjoint)` (lines 262-342). -/
def _discrete_adjoint (adjoint : PyVal) : Except RuleErr (Option String) :=
  match adjoint with
  | PyVal.adjointV a =>
    if a.ty = AdjointTy.recursiveCheckpoint ∨ a.ty = AdjointTy.direct then
      Except.ok (some (joinSep "\n"
        (([discreteLit1, discreteLit2] ++
          (if a.ty = AdjointTy.recursiveCheckpoint then [discreteLit3] else [])).map pyStrip)))
    else Except.ok none
  | _ => Except.ok none

/-- Rule `_virtual_brownian_tree(terms)` (lines 345-357). -/
def _virtual_brownian_tree (env : Env) (terms : PyVal) :
    Except RuleErr (Option String) :=
  if (pyLeaves terms).any is_vbt then
    match unpack2 (_parse_reference_multi env.vbtDoc) with
    | Except.error e => Except.error e
    | Except.ok (vbt_ref, _) => Except.ok (some (vbtLit ++ vbt_ref))
  else Except.ok none

/-- Rule `_space_time_levy_area(terms)` (lines 360-372). -/
def _space_time_levy_area (env : Env) (terms : PyVal) :
    Except RuleErr (Option String) :=
  if (pyLeaves terms).any has_levy_area then
    match unpack2 (_parse_reference_multi env.vbtDoc) with
    | Except.error e => Except.error e
    | Except.ok (_, levy_area_ref) => Except.ok (some (levyLit ++ levy_area_ref))
  else Except.ok none

/-- Rule `_backsolve_rms_norm(adjoint)` (lines 375-381). -/
def _backsolve_rms_norm (env : Env) (adjoint : PyVal) :
    Except RuleErr (Option String) :=
  match adjoint with
  | PyVal.adjointV a =>
    if a.ty = AdjointTy.backsolve then
      if a.leaves.contains LeafKind.seminorm then
        match _parse_reference env.seminormDoc with
        | Except.error e => Except.error e
        | Except.ok r => Except.ok (some (seminormLit ++ r))
      else Except.ok none
    else Except.ok none
  | _ => Except.ok none

/-- Rule `_explicit_solver(solver, terms=None)` (lines 384-406). -/
def _explicit_solver (env : Env) (solver terms : PyVal) :
    Except RuleErr (Option String) :=
  if !isinstanceSolverAbcs solver && !env.is_sde terms then
    Except.ok (some explicitLit)
  else Except.ok none

/-- Rule `_implicit_solver(solver, terms=None)` (lines 409-423). -/
def _implicit_solver (env : Env) (solver terms : PyVal) :
    Except RuleErr (Option String) :=
  if isImplicitInstance solver && !env.is_sde terms then
    Except.ok (some implicitLit)
  else Except.ok none

/-- Rule `_symplectic_solver(solver, terms=None)` (lines 426-441). -/
def _symplectic_solver (env : Env) (solver terms : PyVal) :
    Except RuleErr (Option String) :=
  if isSemiImplicitEuler solver && !env.is_sde terms then
    Except.ok (some symplecticLit)
  else Except.ok none

/-- Rule `_cde(terms)` (lines 444-456). -/
def _cde (env : Env) (terms : PyVal) : Except RuleErr (Option String) :=
  if env.is_cde terms then Except.ok (some cdeLit) else Except.ok none

/-- Rule `_sde(terms)` (lines 459-472). -/
def _sde (env : Env) (terms : PyVal) : Except RuleErr (Option String) :=
  if env.is_sde terms then Except.ok (some sdeLit) else Except.ok none

/-- The tuple of solver classes in the first branch of `_solvers` (lines 480-493). -/
def solversTuple : List SolverTy :=
  [SolverTy.tsit5, SolverTy.kvaerno3, SolverTy.kvaerno4, SolverTy.kvaerno5,
   SolverTy.reversibleHeun, SolverTy.leapfrogMidpoint, SolverTy.shark, SolverTy.sra1,
   SolverTy.slowRK, SolverTy.generalShark, SolverTy.spark, SolverTy.sea]

/-- Rule `_solvers(solver, saveat=None)` (lines 478-544).  In the Dopri8 branch
the membership test is the Python expression
`saveat.dense or (subsaveat.ts is not None for ...)` — note the second operand is
a generator object, modelled by `PyTruthObj.pyGenerator`. -/
def _solvers (env : Env) (solver saveat : PyVal) : Except RuleErr (Option String) :=
  match solver with
  | PyVal.solverV s =>
    if s.ty ∈ solversTuple then
      match _parse_reference s.doc with
      | Except.error e => Except.error e
      | Except.ok r =>
        Except.ok (some (solversLit1 ++ solverName s.ty ++ solversLit2 ++ r))
    else if s.ty = SolverTy.dopri5 then
      match unpack2 (_parse_reference_multi env.dopri5Doc) with
      | Except.error e => Except.error e
      | Except.ok (ref1, ref2) =>
        if containsSub ref1 "Dormand" && containsSub ref1 "Prince" &&
            containsSub ref2 "Shampine" then
          Except.ok (some (dopri5Lit1 ++ ref1 ++ dopri5Lit2 ++ ref2))
        else Except.error RuleErr.assertionFailed
    else if s.ty = SolverTy.dopri8 then
      match unpack2 (_parse_reference_multi env.dopri8Doc) with
      | Except.error e => Except.error e
      | Except.ok (ref1, ref2) =>
        if containsSub ref1 "Dormand" && containsSub ref1 "Prince" &&
            containsSub ref2 "Bogacki" && containsSub ref2 "Shampine" then
          match saveat with
          | PyVal.vnone => Except.ok (some (dopri8Lit1 ++ ref1))
          | PyVal.saveatV sv =>
            if pyTruthy (pyOr (PyTruthObj.pyBool sv.dense)
                (PyTruthObj.pyGenerator sv.subsTs)) then
              Except.ok (some (dopri8Lit1 ++ ref1 ++ dopri8Lit2 ++ ref2))
            else Except.ok (some (dopri8Lit1 ++ ref1))
          | _ => Except.error RuleErr.attributeErr
        else Except.error RuleErr.assertionFailed
    else Except.ok none
  | _ => Except.ok none

/-- Rule `_auto_dt0(dt0)` (lines 547-561). -/
def _auto_dt0 (dt0 : PyVal) : Except RuleErr (Option String) :=
  if dt0 = PyVal.vnone then Except.ok (some dt0Lit) else Except.ok none

/-- Rule `_pid_controller(stepsize_controller, terms=None)` (lines 564-648). -/
def _pid_controller (env : Env) (stepsize_controller terms : PyVal) :
    Except RuleErr (Option String) :=
  match stepsize_controller with
  | PyVal.pid c =>
    if env.is_sde terms then Except.ok (some pidSdeLit)
    else
      let no_p := eqZero c.pcoeff
      let no_d := eqZero c.dcoeff
      match _no_tracer no_p "stepsize_controller.pcoeff" with
      | Except.error e => Except.error e
      | Except.ok _ =>
        match _no_tracer no_d "stepsize_controller.dcoeff" with
        | Except.error e => Except.error e
        | Except.ok _ =>
          if pyBoolVal no_d then
            if pyBoolVal no_p then Except.ok (some pidILit)
            else Except.ok (some pidPILit)
          else Except.ok (some pidPIDLit)
  | _ => Except.ok none

/-- Invoke a rule body with a required argument: a missing required name would
be a `TypeError` in Python (never reachable through the dispatcher, which checks
admissibility first). -/
def req (m : String → Option PyVal) (n : String)
    (k : PyVal → Except RuleErr (Option String)) : Except RuleErr (Option String) :=
  match m n with
  | none => Except.error (RuleErr.missingArg n)
  | some v => k v

/-- The rule registry, in registration order: the successive
`@citation_rules.append` declarations of the source.  Each entry records the
rule's declared parameters (name, has-default) and wires the dispatcher-supplied
keyword arguments into the rule body, applying the Python defaults
(`terms=None`, `saveat=None`) for omitted optional names. -/
def citation_rules (env : Env) : List (Rule PyVal) :=
  [ { params := [], hasVar := false,
      run := fun _ => _diffrax env },
    { params := [⟨"adjoint", false⟩, ⟨"terms", true⟩], hasVar := false,
      run := fun m => req m "adjoint"
        (fun a => _backsolve_adjoint env a ((m "terms").getD PyVal.vnone)) },
    { params := [⟨"adjoint", false⟩], hasVar := false,
      run := fun m => req m "adjoint" (fun a => _discrete_adjoint a) },
    { params := [⟨"terms", false⟩], hasVar := false,
      run := fun m => req m "terms" (fun t => _virtual_brownian_tree env t) },
    { params := [⟨"terms", false⟩], hasVar := false,
      run := fun m => req m "terms" (fun t => _space_time_levy_area env t) },
    { params := [⟨"adjoint", false⟩], hasVar := false,
      run := fun m => req m "adjoint" (fun a => _backsolve_rms_norm env a) },
    { params := [⟨"solver", false⟩, ⟨"terms", true⟩], hasVar := false,
      run := fun m => req m "solver"
        (fun s => _explicit_solver env s ((m "terms").getD PyVal.vnone)) },
    { params := [⟨"solver", false⟩, ⟨"terms", true⟩], hasVar := false,
      run := fun m => req m "solver"
        (fun s => _implicit_solver env s ((m "terms").getD PyVal.vnone)) },
    { params := [⟨"solver", false⟩, ⟨"terms", true⟩], hasVar := false,
      run := fun m => req m "solver"
        (fun s => _symplectic_solver env s ((m "terms").getD PyVal.vnone)) },
    { params := [⟨"terms", false⟩], hasVar := false,
      run := fun m => req m "terms" (fun t => _cde env t) },
    { params := [⟨"terms", false⟩], hasVar := false,
      run := fun m => req m "terms" (fun t => _sde env t) },
    { params := [⟨"solver", false⟩, ⟨"saveat", true⟩], hasVar := false,
      run := fun m => req m "solver"
        (fun s => _solvers env s ((m "saveat").getD PyVal.vnone)) },
    { params := [⟨"dt0", false⟩], hasVar := false,
      run := fun m => req m "dt0" (fun d => _auto_dt0 d) },
    { params := [⟨"stepsize_controller", false⟩, ⟨"terms", true⟩], hasVar := false,
      run := fun m => req m "stepsize_controller"
        (fun c => _pid_controller env c ((m "terms").getD PyVal.vnone)) } ]

/-- `citation(*args, **kwargs)` (lines 41-126): bind the call against the
canonical parameter list `P`, dispatch the rules in registration order, and
return the document that would be printed (an error result means nothing is
printed, since the single `print` is the last statement). -/
def citation {V : Type} (P : List String) (rules : List (Rule V)) (args : List V)
    (kwargs : List (String × V)) : Except CiteErr String :=
  match bindArgs P args kwargs with
  | Except.error e => Except.error (CiteErr.binding e)
  | Except.ok ks =>
    match runRulesAux ks rules [] with
    | Except.error e => Except.error (CiteErr.rule e)
    | Except.ok blocks => Except.ok (joinSep "\n\n" ([_start] ++ blocks ++ [_end]))

/-! ### Spec-side definitions, used to state the refinement claims.  These
follow the spec's words (§4.2 step 4, §4.5, §8 "Order stability"), to be
compared with the dispatcher above. -/

/-- Spec-side: the block a rule contributes to the output sequence — present iff
the rule is admitted and its invocation returns non-empty text, in which case it
is that text, trimmed. -/
def ruleBlock {V : Type} (ks : List (String × V)) (r : Rule V) : Option String :=
  if admitted r ks then
    match r.run (ruleArgsFun r ks) with
    | Except.ok (some c) => if pyStrip c = "" then none else some (pyStrip c)
    | _ => none
  else none

/-- Spec-side: the ordered output sequence — the registered rules in
registration order, filtered to admitted rules with non-empty output. -/
def specBlocks {V : Type} (rules : List (Rule V)) (ks : List (String × V)) :
    List String :=
  rules.filterMap (ruleBlock ks)

/-- Spec-side renderer (§4.5): start banner, ordered outputs and end banner
joined with a blank line between every pair of blocks. -/
def render (blocks : List String) : String :=
  joinSep "\n\n" ([_start] ++ blocks ++ [_end])

/-- A rule whose body never returns whitespace-only text (every rule of the
registry has this property: each of its outputs starts with a literal
non-whitespace banner line). -/
def GoodRule {V : Type} (r : Rule V) : Prop :=
  ∀ m c, r.run m = Except.ok (some c) → hasNonWs c = true

/-- A documentation string built as interleaved plain segments and fenced
reference blocks, ending with a final plain segment; used to state that
`_parse_reference_multi` returns all blocks in document order. -/
def buildRefDoc : List (String × String) → String → String
  | [], tail => tail
  | (s, b) :: ps, tail => s ++ "```bibtex" ++ b ++ "```" ++ buildRefDoc ps tail

/-- A closed example environment, for concrete evaluations. -/
def envEx : Env :=
  { jaxVersion := "0.4.26", vbtDoc := "", dopri5Doc := "", dopri8Doc := "",
    seminormDoc := "", is_sde := fun _ => false, is_cde := fun _ => false }

/-- A closed example environment whose `Dopri8` docstring carries the two
expected reference blocks. -/
def envD8 : Env :=
  { envEx with
    dopri8Doc :=
      "```bibtex\n  Dormand and Prince 8(7)\n``` text ```bibtex\n  Bogacki and Shampine interpolation\n```" }

/-- A closed example canonical parameter list, standing in for the parameter
list of `diffeqsolve` in concrete evaluations. -/
def pEx : List String :=
  ["terms", "solver", "t0", "t1", "dt0", "y0", "args", "saveat",
   "stepsize_controller", "adjoint"]

end Autocitation

namespace Autocitation

/-! ## Theorems.  First a layer of lemmas about the Python string primitives,
then the dispatcher lemmas, then one theorem per claim. -/

theorem data_append (a b : String) : (a ++ b).data = a.data ++ b.data := rfl

theorem hasNonWs_append (a b : String) :
    hasNonWs (a ++ b) = (hasNonWs a || hasNonWs b) := by
  simp [hasNonWs, data_append, List.any_append]

theorem dropWhile_head_false {α : Type} {p : α → Bool} {l : List α} {c : α}
    {t : List α} (h : l.dropWhile p = c :: t) : p c = false := by
  induction l with
  | nil => simp [List.dropWhile] at h
  | cons a l ih =>
    simp only [List.dropWhile] at h
    split at h
    · exact ih h
    · rename_i hp
      cases h
      simpa using hp

theorem dropWhile_dropWhile {α : Type} (p : α → Bool) (l : List α) :
    (l.dropWhile p).dropWhile p = l.dropWhile p := by
  cases h : l.dropWhile p with
  | nil => rfl
  | cons c t =>
    have := dropWhile_head_false h
    simp [List.dropWhile, this]

theorem getLast?_dropWhile {α : Type} (p : α → Bool) (l : List α)
    (h : l.dropWhile p ≠ []) : (l.dropWhile p).getLast? = l.getLast? := by
  induction l with
  | nil => simp [List.dropWhile] at h
  | cons a l ih =>
    simp only [List.dropWhile] at h ⊢
    split
    · rename_i hp
      have hne : l.dropWhile p ≠ [] := by
        simpa [List.dropWhile, hp] using h
      rw [ih hne]
      have : l ≠ [] := by
        intro he
        exact hne (by simp [he, List.dropWhile])
      cases l with
      | nil => exact absurd rfl this
      | cons b m => simp
    · rfl

theorem any_dropWhile {α : Type} (p : α → Bool) (l : List α)
    (h : l.any (fun c => !p c) = true) :
    (l.dropWhile p).any (fun c => !p c) = true := by
  induction l with
  | nil => simp at h
  | cons a l ih =>
    simp only [List.dropWhile]
    split
    · rename_i hp
      apply ih
      simp only [List.any_cons, Bool.or_eq_true] at h
      rcases h with h | h
      · simp [hp] at h
      · exact h
    · exact h

theorem pyStripChars_any (l : List Char)
    (h : l.any (fun c => !isPySpace c) = true) :
    (pyStripChars l).any (fun c => !isPySpace c) = true := by
  unfold pyStripChars
  rw [List.any_reverse]
  apply any_dropWhile
  rw [List.any_reverse]
  exact any_dropWhile _ _ h

theorem mk_eq_empty_iff (l : List Char) : (⟨l⟩ : String) = "" ↔ l = [] := by
  constructor
  · intro h
    exact congrArg String.data h
  · intro h
    rw [h]

theorem strip_ne_empty {s : String} (h : hasNonWs s = true) : pyStrip s ≠ "" := by
  intro he
  have hd : pyStripChars s.data = [] := congrArg String.data he
  have h2 := pyStripChars_any s.data h
  rw [hd] at h2
  simp at h2

theorem hasNonWs_pyStrip {s : String} (h : hasNonWs s = true) :
    hasNonWs (pyStrip s) = true := pyStripChars_any s.data h

theorem pyStripChars_clean_last (l : List Char) :
    ∀ c ∈ (pyStripChars l).getLast?, isPySpace c = false := by
  intro c hc
  unfold pyStripChars at hc
  rw [List.getLast?_reverse] at hc
  cases hd : ((l.dropWhile isPySpace).reverse).dropWhile isPySpace with
  | nil => rw [hd] at hc; simp at hc
  | cons d t =>
    rw [hd] at hc
    simp at hc
    subst hc
    exact dropWhile_head_false hd

theorem pyStripChars_clean_head (l : List Char) :
    ∀ c ∈ (pyStripChars l).head?, isPySpace c = false := by
  intro c hc
  unfold pyStripChars at hc
  rw [List.head?_reverse] at hc
  by_cases hne : ((l.dropWhile isPySpace).reverse).dropWhile isPySpace = []
  · rw [hne] at hc; simp at hc
  · rw [getLast?_dropWhile _ _ hne, List.getLast?_reverse] at hc
    cases hd : l.dropWhile isPySpace with
    | nil => rw [hd] at hc; simp at hc
    | cons d t =>
      rw [hd] at hc
      simp at hc
      subst hc
      exact dropWhile_head_false hd

/-- Stripping a list that already starts and ends with non-whitespace leaves it
unchanged. -/
theorem strip_of_clean (x : List Char)
    (hh : ∀ c ∈ x.head?, isPySpace c = false)
    (hl : ∀ c ∈ x.getLast?, isPySpace c = false) :
    pyStripChars x = x := by
  unfold pyStripChars
  have h1 : x.dropWhile isPySpace = x := by
    cases hx : x with
    | nil => simp [List.dropWhile]
    | cons c t =>
      have : isPySpace c = false := hh c (by simp [hx])
      simp [List.dropWhile, this]
  rw [h1]
  have h2 : x.reverse.dropWhile isPySpace = x.reverse := by
    cases hx : x.reverse with
    | nil => simp [List.dropWhile]
    | cons c t =>
      have hc : x.getLast? = some c := by
        rw [← List.head?_reverse, hx]
        rfl
      have : isPySpace c = false := hl c (by simp [hc])
      simp [List.dropWhile, this]
  rw [h2, List.reverse_reverse]

theorem pyStripChars_idem (l : List Char) :
    pyStripChars (pyStripChars l) = pyStripChars l :=
  strip_of_clean _ (pyStripChars_clean_head l) (pyStripChars_clean_last l)


theorem pyStrip_idem (s : String) : pyStrip (pyStrip s) = pyStrip s :=
  congrArg String.mk (pyStripChars_idem s.data)

theorem hasNonWs_joinSep_cons (sep a : String) (l : List String)
    (h : hasNonWs a = true) : hasNonWs (joinSep sep (a :: l)) = true := by
  cases l with
  | nil => simpa [joinSep] using h
  | cons b m => simp [joinSep, hasNonWs_append, h]

/-! ### Dispatcher lemmas -/

theorem alookup_isSome {V : Type} (ks : List (String × V)) (n : String) :
    (alookup ks n).isSome = true ↔ n ∈ mapKeys ks := by
  induction ks with
  | nil => simp [alookup, mapKeys]
  | cons kv rest ih =>
    by_cases h : kv.1 = n
    · simp [alookup, mapKeys, List.find?_cons_of_pos, h]
    · have hs : alookup (kv :: rest) n = alookup rest n := by
        unfold alookup
        rw [List.find?_cons_of_neg]
        simp [h]
      rw [hs, ih]
      simp [mapKeys, h]
      intro he
      exact absurd he.symm h

theorem admitted_iff {V : Type} (r : Rule V) (ks : List (String × V)) :
    admitted r ks = true ↔ ∀ n ∈ neededKeys r.params, n ∈ mapKeys ks := by
  unfold admitted
  rw [List.all_eq_true]
  constructor
  · intro h n hn
    exact (alookup_isSome ks n).mp (h n hn)
  · intro h n hn
    exact (alookup_isSome ks n).mpr (h n hn)

theorem alookup_restrictArgs {V : Type} (ps : List Param) (ks : List (String × V))
    (n : String) :
    alookup (restrictArgs ps ks) n =
      if n ∈ ps.map Param.name then alookup ks n else none := by
  induction ps with
  | nil => simp [restrictArgs, alookup]
  | cons p ps ih =>
    cases hv : alookup ks p.name with
    | none =>
      have hr : restrictArgs (p :: ps) ks = restrictArgs ps ks := by
        simp [restrictArgs, List.filterMap_cons, hv]
      rw [hr, ih]
      by_cases hn : n = p.name
      · subst hn
        simp [hv]
      · simp [hn]
    | some v =>
      have hr : restrictArgs (p :: ps) ks = (p.name, v) :: restrictArgs ps ks := by
        simp [restrictArgs, List.filterMap_cons, hv]
      rw [hr]
      by_cases hn : n = p.name
      · subst hn
        have hl : alookup ((p.name, v) :: restrictArgs ps ks) p.name = some v := by
          unfold alookup
          rw [List.find?_cons_of_pos _ (by simp)]
          rfl
        rw [hl]
        simp [hv]
      · have hs : alookup ((p.name, v) :: restrictArgs ps ks) n
            = alookup (restrictArgs ps ks) n := by
          unfold alookup
          rw [List.find?_cons_of_neg]
          simp
          intro he
          exact absurd he.symm hn
        rw [hs, ih]
        simp [hn]

theorem processRule_not_admitted {V : Type} (ks : List (String × V))
    (acc : List String) (r : Rule V) (h : admitted r ks = false) :
    processRule ks acc r = Except.ok acc := by
  simp [processRule, h]

theorem processRule_admitted {V : Type} (ks : List (String × V))
    (acc : List String) (r : Rule V) (h : admitted r ks = true) :
    processRule ks acc r =
      match r.run (ruleArgsFun r ks) with
      | Except.error e => Except.error e
      | Except.ok none => Except.ok acc
      | Except.ok (some c) => Except.ok (acc ++ [pyStrip c]) := by
  simp [processRule, h]

theorem processRule_extends {V : Type} (ks : List (String × V))
    (acc acc2 : List String) (r : Rule V)
    (h : processRule ks acc r = Except.ok acc2) : ∃ u, acc2 = acc ++ u := by
  unfold processRule at h
  split at h
  · split at h
    · cases h
    · cases h
      exact ⟨[], by simp⟩
    · cases h
      exact ⟨_, rfl⟩
  · cases h
    exact ⟨[], by simp⟩

theorem runRulesAux_extends {V : Type} (ks : List (String × V)) :
    ∀ (rules : List (Rule V)) (acc bs : List String),
    runRulesAux ks rules acc = Except.ok bs → ∃ t, bs = acc ++ t := by
  intro rules
  induction rules with
  | nil =>
    intro acc bs h
    simp [runRulesAux] at h
    exact ⟨[], by simp [h]⟩
  | cons r rs ih =>
    intro acc bs h
    simp only [runRulesAux] at h
    cases hp : processRule ks acc r with
    | error e => rw [hp] at h; cases h
    | ok acc2 =>
      rw [hp] at h
      obtain ⟨t, ht⟩ := ih acc2 bs h
      obtain ⟨u, hu⟩ := processRule_extends ks acc acc2 r hp
      exact ⟨u ++ t, by simp [ht, hu]⟩

theorem runRulesAux_spec {V : Type} (ks : List (String × V)) :
    ∀ (rules : List (Rule V)) (acc bs : List String),
    (∀ r ∈ rules, GoodRule r) →
    runRulesAux ks rules acc = Except.ok bs →
    bs = acc ++ specBlocks rules ks := by
  intro rules
  induction rules with
  | nil =>
    intro acc bs _ h
    simp [runRulesAux] at h
    simp [specBlocks, h]
  | cons r rs ih =>
    intro acc bs hg h
    have hgr : GoodRule r := hg r (by simp)
    have hgs : ∀ r' ∈ rs, GoodRule r' := fun r' hr' => hg r' (by simp [hr'])
    simp only [runRulesAux] at h
    by_cases ha : admitted r ks
    · rw [processRule_admitted ks acc r ha] at h
      cases hr : r.run (ruleArgsFun r ks) with
      | error e => rw [hr] at h; cases h
      | ok oc =>
        cases oc with
        | none =>
          rw [hr] at h
          have hb : ruleBlock ks r = none := by
            simp [ruleBlock, ha, hr]
          rw [ih acc bs hgs h]
          simp [specBlocks, List.filterMap_cons, hb]
        | some c =>
          rw [hr] at h
          have hne : pyStrip c ≠ "" := strip_ne_empty (hgr _ c hr)
          have hb : ruleBlock ks r = some (pyStrip c) := by
            simp [ruleBlock, ha, hr, hne]
          rw [ih (acc ++ [pyStrip c]) bs hgs h]
          simp [specBlocks, List.filterMap_cons, hb]
    · rw [processRule_not_admitted ks acc r (by simpa using ha)] at h
      have hb : ruleBlock ks r = none := by
        simp [ruleBlock, (by simpa using ha : admitted r ks = false)]
      rw [ih acc bs hgs h]
      simp [specBlocks, List.filterMap_cons, hb]

theorem specBlocks_mem {V : Type} (rules : List (Rule V)) (ks : List (String × V))
    (b : String) (hb : b ∈ specBlocks rules ks) : b ≠ "" ∧ pyStrip b = b := by
  simp only [specBlocks, List.mem_filterMap] at hb
  obtain ⟨r, _, hr⟩ := hb
  unfold ruleBlock at hr
  split at hr
  · cases hrun : r.run (ruleArgsFun r ks) with
    | error e => rw [hrun] at hr; cases hr
    | ok oc =>
      cases oc with
      | none => rw [hrun] at hr; cases hr
      | some c =>
        rw [hrun] at hr
        dsimp only at hr
        by_cases hne : pyStrip c = ""
        · rw [if_pos hne] at hr
          cases hr
        · rw [if_neg hne] at hr
          cases hr
          exact ⟨hne, pyStrip_idem c⟩
  · cases hr

/-! ### Every registered rule returns `None` or text containing a
non-whitespace character (each output starts with a literal banner line), so the
source's `cite is not None` filter agrees with the spec's "non-empty text"
filter. -/

theorem good_diffrax (env : Env) :
    ∀ c, _diffrax env = Except.ok (some c) → hasNonWs c = true := by
  intro c h
  unfold _diffrax at h
  simp only [Except.ok.injEq, Option.some.injEq] at h
  subst h
  have h1 : hasNonWs diffraxLit1 = true := by decide
  simp [hasNonWs_append, h1]

theorem good_backsolve (env : Env) (a t : PyVal) :
    ∀ c, _backsolve_adjoint env a t = Except.ok (some c) → hasNonWs c = true := by
  intro c h
  unfold _backsolve_adjoint at h
  have h1 : hasNonWs backsolveSdeLit1 = true := by decide
  have h2 : hasNonWs backsolveCdeLit = true := by decide
  have h3 : hasNonWs backsolveOdeLit = true := by decide
  cases a
  case adjointV ad =>
    dsimp only at h
    split at h
    · split at h
      · cases hu : unpack2 (_parse_reference_multi env.vbtDoc) with
        | error e => rw [hu] at h; cases h
        | ok pr =>
          obtain ⟨vr, r2⟩ := pr
          rw [hu] at h
          dsimp only at h
          simp only [Except.ok.injEq, Option.some.injEq] at h
          subst h
          simp [hasNonWs_append, h1]
      · split at h
        · simp only [Except.ok.injEq, Option.some.injEq] at h
          subst h
          simp [hasNonWs_append, h2]
        · simp only [Except.ok.injEq, Option.some.injEq] at h
          subst h
          simp [hasNonWs_append, h3]
    · cases h
  all_goals simp at h

theorem good_discrete (a : PyVal) :
    ∀ c, _discrete_adjoint a = Except.ok (some c) → hasNonWs c = true := by
  intro c h
  unfold _discrete_adjoint at h
  cases a
  case adjointV ad =>
    dsimp only at h
    split at h
    · simp only [Except.ok.injEq, Option.some.injEq] at h
      subst h
      have h1 : hasNonWs (pyStrip discreteLit1) = true := by decide
      simp only [List.cons_append, List.map_cons]
      exact hasNonWs_joinSep_cons _ _ _ h1
    · cases h
  all_goals simp at h

theorem good_vbt (env : Env) (t : PyVal) :
    ∀ c, _virtual_brownian_tree env t = Except.ok (some c) → hasNonWs c = true := by
  intro c h
  unfold _virtual_brownian_tree at h
  split at h
  · cases hu : unpack2 (_parse_reference_multi env.vbtDoc) with
    | error e => rw [hu] at h; cases h
    | ok pr =>
      obtain ⟨vr, r2⟩ := pr
      rw [hu] at h
      dsimp only at h
      simp only [Except.ok.injEq, Option.some.injEq] at h
      subst h
      have h1 : hasNonWs vbtLit = true := by decide
      simp [hasNonWs_append, h1]
  · cases h

theorem good_levy (env : Env) (t : PyVal) :
    ∀ c, _space_time_levy_area env t = Except.ok (some c) → hasNonWs c = true := by
  intro c h
  unfold _space_time_levy_area at h
  split at h
  · cases hu : unpack2 (_parse_reference_multi env.vbtDoc) with
    | error e => rw [hu] at h; cases h
    | ok pr =>
      obtain ⟨r1, lr⟩ := pr
      rw [hu] at h
      dsimp only at h
      simp only [Except.ok.injEq, Option.some.injEq] at h
      subst h
      have h1 : hasNonWs levyLit = true := by decide
      simp [hasNonWs_append, h1]
  · cases h

theorem good_rms (env : Env) (a : PyVal) :
    ∀ c, _backsolve_rms_norm env a = Except.ok (some c) → hasNonWs c = true := by
  intro c h
  unfold _backsolve_rms_norm at h
  cases a
  case adjointV ad =>
    dsimp only at h
    split at h
    · split at h
      · cases hp : _parse_reference env.seminormDoc with
        | error e => rw [hp] at h; cases h
        | ok r =>
          rw [hp] at h
          dsimp only at h
          simp only [Except.ok.injEq, Option.some.injEq] at h
          subst h
          have h1 : hasNonWs seminormLit = true := by decide
          simp [hasNonWs_append, h1]
      · cases h
    · cases h
  all_goals simp at h

theorem good_explicit (env : Env) (s t : PyVal) :
    ∀ c, _explicit_solver env s t = Except.ok (some c) → hasNonWs c = true := by
  intro c h
  unfold _explicit_solver at h
  split at h
  · simp only [Except.ok.injEq, Option.some.injEq] at h
    subst h
    decide
  · cases h

theorem good_implicit (env : Env) (s t : PyVal) :
    ∀ c, _implicit_solver env s t = Except.ok (some c) → hasNonWs c = true := by
  intro c h
  unfold _implicit_solver at h
  split at h
  · simp only [Except.ok.injEq, Option.some.injEq] at h
    subst h
    decide
  · cases h

theorem good_symplectic (env : Env) (s t : PyVal) :
    ∀ c, _symplectic_solver env s t = Except.ok (some c) → hasNonWs c = true := by
  intro c h
  unfold _symplectic_solver at h
  split at h
  · simp only [Except.ok.injEq, Option.some.injEq] at h
    subst h
    decide
  · cases h

theorem good_cde (env : Env) (t : PyVal) :
    ∀ c, _cde env t = Except.ok (some c) → hasNonWs c = true := by
  intro c h
  unfold _cde at h
  split at h
  · simp only [Except.ok.injEq, Option.some.injEq] at h
    subst h
    decide
  · cases h

theorem good_sde (env : Env) (t : PyVal) :
    ∀ c, _sde env t = Except.ok (some c) → hasNonWs c = true := by
  intro c h
  unfold _sde at h
  split at h
  · simp only [Except.ok.injEq, Option.some.injEq] at h
    subst h
    decide
  · cases h

theorem good_solvers (env : Env) (sv sa : PyVal) :
    ∀ c, _solvers env sv sa = Except.ok (some c) → hasNonWs c = true := by
  intro c h
  unfold _solvers at h
  have h1 : hasNonWs solversLit1 = true := by decide
  have h5 : hasNonWs dopri5Lit1 = true := by decide
  have h8 : hasNonWs dopri8Lit1 = true := by decide
  cases sv
  case solverV s =>
    dsimp only at h
    split at h
    · cases hp : _parse_reference s.doc with
      | error e => rw [hp] at h; cases h
      | ok r =>
        rw [hp] at h
        dsimp only at h
        simp only [Except.ok.injEq, Option.some.injEq] at h
        subst h
        simp [hasNonWs_append, h1]
    · split at h
      · cases hu : unpack2 (_parse_reference_multi env.dopri5Doc) with
        | error e => rw [hu] at h; cases h
        | ok pr =>
          obtain ⟨r1, r2⟩ := pr
          rw [hu] at h
          dsimp only at h
          split at h
          · simp only [Except.ok.injEq, Option.some.injEq] at h
            subst h
            simp [hasNonWs_append, h5]
          · cases h
      · split at h
        · cases hu : unpack2 (_parse_reference_multi env.dopri8Doc) with
          | error e => rw [hu] at h; cases h
          | ok pr =>
            obtain ⟨r1, r2⟩ := pr
            rw [hu] at h
            dsimp only at h
            split at h
            · cases sa
              case vnone =>
                dsimp only at h
                simp only [Except.ok.injEq, Option.some.injEq] at h
                subst h
                simp [hasNonWs_append, h8]
              case saveatV svv =>
                dsimp only at h
                split at h
                · simp only [Except.ok.injEq, Option.some.injEq] at h
                  subst h
                  simp [hasNonWs_append, h8]
                · simp only [Except.ok.injEq, Option.some.injEq] at h
                  subst h
                  simp [hasNonWs_append, h8]
              all_goals simp at h
            · cases h
        · cases h
  all_goals simp at h

theorem good_dt0 (d : PyVal) :
    ∀ c, _auto_dt0 d = Except.ok (some c) → hasNonWs c = true := by
  intro c h
  unfold _auto_dt0 at h
  split at h
  · simp only [Except.ok.injEq, Option.some.injEq] at h
    subst h
    decide
  · cases h

theorem good_pid (env : Env) (sc t : PyVal) :
    ∀ c, _pid_controller env sc t = Except.ok (some c) → hasNonWs c = true := by
  intro c h
  unfold _pid_controller at h
  cases sc
  case pid cc =>
    dsimp only at h
    split at h
    · simp only [Except.ok.injEq, Option.some.injEq] at h
      subst h
      decide
    · cases hnp : _no_tracer (eqZero cc.pcoeff) "stepsize_controller.pcoeff" with
      | error e => rw [hnp] at h; cases h
      | ok u =>
        rw [hnp] at h
        dsimp only at h
        cases hnd : _no_tracer (eqZero cc.dcoeff) "stepsize_controller.dcoeff" with
        | error e => rw [hnd] at h; cases h
        | ok u2 =>
          rw [hnd] at h
          dsimp only at h
          split at h
          · split at h
            · simp only [Except.ok.injEq, Option.some.injEq] at h
              subst h
              decide
            · simp only [Except.ok.injEq, Option.some.injEq] at h
              subst h
              decide
          · simp only [Except.ok.injEq, Option.some.injEq] at h
            subst h
            decide
  all_goals simp at h

theorem req_good {m : String → Option PyVal} {n : String}
    {k : PyVal → Except RuleErr (Option String)} {c : String}
    (hk : ∀ v c2, k v = Except.ok (some c2) → hasNonWs c2 = true)
    (h : req m n k = Except.ok (some c)) : hasNonWs c = true := by
  unfold req at h
  cases hm : m n with
  | none => rw [hm] at h; cases h
  | some v => rw [hm] at h; exact hk v c h

/-- Every rule of the registry is good: its outputs always contain
non-whitespace (each begins with a literal comment/banner line). -/
theorem citation_rules_good (env : Env) : ∀ r ∈ citation_rules env, GoodRule r := by
  intro r hr
  simp only [citation_rules, List.mem_cons, List.not_mem_nil, or_false] at hr
  rcases hr with rfl | rfl | rfl | rfl | rfl | rfl | rfl | rfl | rfl | rfl | rfl | rfl | rfl | rfl
  · intro m c h
    exact good_diffrax env c h
  · intro m c h
    exact req_good (fun v c2 hh => good_backsolve env v _ c2 hh) h
  · intro m c h
    exact req_good (fun v c2 hh => good_discrete v c2 hh) h
  · intro m c h
    exact req_good (fun v c2 hh => good_vbt env v c2 hh) h
  · intro m c h
    exact req_good (fun v c2 hh => good_levy env v c2 hh) h
  · intro m c h
    exact req_good (fun v c2 hh => good_rms env v c2 hh) h
  · intro m c h
    exact req_good (fun v c2 hh => good_explicit env v _ c2 hh) h
  · intro m c h
    exact req_good (fun v c2 hh => good_implicit env v _ c2 hh) h
  · intro m c h
    exact req_good (fun v c2 hh => good_symplectic env v _ c2 hh) h
  · intro m c h
    exact req_good (fun v c2 hh => good_cde env v c2 hh) h
  · intro m c h
    exact req_good (fun v c2 hh => good_sde env v c2 hh) h
  · intro m c h
    exact req_good (fun v c2 hh => good_solvers env v _ c2 hh) h
  · intro m c h
    exact req_good (fun v c2 hh => good_dt0 v c2 hh) h
  · intro m c h
    exact req_good (fun v c2 hh => good_pid env v _ c2 hh) h

/-! ### `findRefs` on well-formed documents: every fenced block is found, in
document order. -/

theorem findRefsAux_fuel :
    ∀ (f1 f2 : Nat) (s : List Char), s.length ≤ f1 → s.length ≤ f2 →
    findRefsAux f1 s = findRefsAux f2 s := by
  intro f1
  induction f1 with
  | zero =>
    intro f2 s h1 _
    have hs : s = [] := List.eq_nil_of_length_eq_zero (Nat.le_zero.mp h1)
    subst hs
    cases f2 <;> rfl
  | succ f1 ih =>
    intro f2 s h1 h2
    cases s with
    | nil => cases f2 <;> rfl
    | cons c cs =>
      cases f2 with
      | zero => simp at h2
      | succ g =>
        simp only [findRefsAux]
        cases hm : matchAt (c :: cs) with
        | some pr =>
          obtain ⟨cap, rest⟩ := pr
          have hr := matchAt_length hm
          simp only [List.length_cons] at h1 h2 hr
          dsimp only
          rw [ih g rest (by omega) (by omega)]
        | none =>
          simp only [List.length_cons] at h1 h2
          dsimp only
          rw [ih g cs (by omega) (by omega)]

theorem findRefs_cons_none {c : Char} {cs : List Char}
    (h : matchAt (c :: cs) = none) : findRefs (c :: cs) = findRefs cs := by
  show findRefsAux (cs.length + 1) (c :: cs) = findRefsAux cs.length cs
  simp only [findRefsAux]
  rw [h]


theorem findRefs_cons_some {c : Char} {cs cap rest : List Char}
    (h : matchAt (c :: cs) = some (cap, rest)) :
    findRefs (c :: cs) = cap :: findRefs rest := by
  have hlen : rest.length ≤ cs.length := by
    have := matchAt_length h
    simp only [List.length_cons] at this
    omega
  show findRefsAux (cs.length + 1) (c :: cs) = cap :: findRefsAux rest.length rest
  simp only [findRefsAux]
  rw [h]
  dsimp only
  rw [findRefsAux_fuel cs.length rest.length rest hlen (Nat.le_refl _)]

theorem dropLit_cons_ne {p c : Char} {ps cs : List Char} (h : p ≠ c) :
    dropLit (p :: ps) (c :: cs) = none := by
  unfold dropLit
  rw [if_neg h]

theorem matchAt_none_of_ne {c : Char} (cs : List Char) (h : c ≠ '`') :
    matchAt (c :: cs) = none := by
  unfold matchAt
  rw [show "```bibtex".data = '`' :: "``bibtex".data from rfl]
  rw [dropLit_cons_ne (fun he => h he.symm)]

theorem findRefs_clean_append (sl t : List Char) (hs : ∀ c ∈ sl, c ≠ '`') :
    findRefs (sl ++ t) = findRefs t := by
  induction sl with
  | nil => simp
  | cons c cs ih =>
    have hc : c ≠ '`' := hs c (by simp)
    rw [List.cons_append, findRefs_cons_none (matchAt_none_of_ne _ hc)]
    exact ih (fun d hd => hs d (by simp [hd]))

theorem findRefs_nil : findRefs [] = [] := rfl

theorem findRefs_clean (sl : List Char) (hs : ∀ c ∈ sl, c ≠ '`') :
    findRefs sl = [] := by
  have h := findRefs_clean_append sl [] hs
  rw [List.append_nil] at h
  rw [h, findRefs_nil]

theorem dropLit_self_append (ps t : List Char) : dropLit ps (ps ++ t) = some t := by
  induction ps with
  | nil => rfl
  | cons p ps ih => simp [dropLit, ih]

theorem takeWhile_clean_append (b t : List Char) (hb : ∀ c ∈ b, c ≠ '`') :
    (b ++ '`' :: t).takeWhile (fun c => c ≠ '`') = b ∧
    (b ++ '`' :: t).dropWhile (fun c => c ≠ '`') = '`' :: t := by
  induction b with
  | nil => simp [List.takeWhile, List.dropWhile]
  | cons c cs ih =>
    have hc : c ≠ '`' := hb c (by simp)
    obtain ⟨h1, h2⟩ := ih (fun d hd => hb d (by simp [hd]))
    constructor
    · rw [List.cons_append, List.takeWhile_cons]
      split
      · rw [h1]
      · rename_i hfalse
        exact absurd (by simpa using hc) hfalse
    · rw [List.cons_append, List.dropWhile_cons]
      split
      · rw [h2]
      · rename_i hfalse
        exact absurd (by simpa using hc) hfalse

theorem matchAt_build (b t : List Char) (hb : ∀ c ∈ b, c ≠ '`') :
    matchAt ("```bibtex".data ++ (b ++ ("```".data ++ t))) = some (b, t) := by
  unfold matchAt
  rw [dropLit_self_append]
  dsimp only
  have hshape : b ++ ("```".data ++ t) = b ++ '`' :: ('`' :: '`' :: t) := rfl
  obtain ⟨htake, hdrop⟩ := takeWhile_clean_append b ('`' :: '`' :: t) hb
  rw [hshape, hdrop]
  have hclose : dropLit "```".data ('`' :: '`' :: '`' :: t) = some t :=
    dropLit_self_append "```".data t
  rw [hclose]
  rw [htake]

theorem findRefs_eq_of_matchAt {L cap rest : List Char}
    (h : matchAt L = some (cap, rest)) :
    findRefs L = cap :: findRefs rest := by
  cases L with
  | nil =>
    rw [show matchAt [] = none from rfl] at h
    cases h
  | cons c cs => exact findRefs_cons_some h

theorem findRefs_fence (b t : List Char) (hb : ∀ c ∈ b, c ≠ '`') :
    findRefs ("```bibtex".data ++ (b ++ ("```".data ++ t))) = b :: findRefs t :=
  findRefs_eq_of_matchAt (matchAt_build b t hb)

theorem findRefs_buildRefDoc (pieces : List (String × String)) (tail : String)
    (hp : ∀ q ∈ pieces, (∀ c ∈ q.1.data, c ≠ '`') ∧ (∀ c ∈ q.2.data, c ≠ '`'))
    (ht : ∀ c ∈ tail.data, c ≠ '`') :
    findRefs (buildRefDoc pieces tail).data = pieces.map (fun q => q.2.data) := by
  induction pieces with
  | nil =>
    simp only [buildRefDoc, List.map_nil]
    exact findRefs_clean tail.data ht
  | cons q ps ih =>
    obtain ⟨s, b⟩ := q
    have hq := hp (s, b) (by simp)
    have hdata : (buildRefDoc ((s, b) :: ps) tail).data =
        s.data ++ ("```bibtex".data ++ (b.data ++ ("```".data ++ (buildRefDoc ps tail).data))) := by
      simp [buildRefDoc, data_append, List.append_assoc]
    rw [hdata, findRefs_clean_append _ _ hq.1, findRefs_fence _ _ hq.2,
      ih (fun q2 hq2 => hp q2 (by simp [hq2]))]
    simp

/-! ## Claim theorems -/

/-- C1: every call to `citation` that raises no error prints the start banner,
then one block per admitted rule with non-empty output — each block the rule's
return text trimmed of surrounding whitespace, in registration order — then the
end banner, all joined by the blank-line separator `"\n\n"`.  Each block is
non-empty and has no leading or trailing whitespace (it equals its own strip),
so every pair of consecutive blocks is separated by exactly one blank line, and
rules returning empty or absent output contribute no block. -/
theorem c1_document_shape (env : Env) (P : List String) (args : List PyVal)
    (kwargs : List (String × PyVal))
    (h : (citation P (citation_rules env) args kwargs).isOk = true) :
    ∃ ks doc, bindArgs P args kwargs = Except.ok ks ∧
      citation P (citation_rules env) args kwargs = Except.ok doc ∧
      doc = render (specBlocks (citation_rules env) ks) ∧
      ∀ b ∈ specBlocks (citation_rules env) ks, b ≠ "" ∧ pyStrip b = b := by
  unfold citation at h ⊢
  cases hb : bindArgs P args kwargs with
  | error e =>
    rw [hb] at h
    simp [Except.isOk, Except.toBool] at h
  | ok ks =>
    rw [hb] at h
    dsimp only at h ⊢
    cases hr : runRulesAux ks (citation_rules env) [] with
    | error e =>
      rw [hr] at h
      simp [Except.isOk, Except.toBool] at h
    | ok blocks =>
      have hspec := runRulesAux_spec ks (citation_rules env) [] blocks
        (citation_rules_good env) hr
      refine ⟨ks, joinSep "\n\n" ([_start] ++ blocks ++ [_end]), rfl, rfl, ?_,
        fun b hb2 => specBlocks_mem _ _ _ hb2⟩
      rw [hspec]
      simp [render]

/-- Witness for C1 at the no-argument call. -/
theorem c1_document_shape_witness :
    ∃ ks doc, bindArgs pEx ([] : List PyVal) [] = Except.ok ks ∧
      citation pEx (citation_rules envEx) [] [] = Except.ok doc ∧
      doc = render (specBlocks (citation_rules envEx) ks) ∧
      ∀ b ∈ specBlocks (citation_rules envEx) ks, b ≠ "" ∧ pyStrip b = b :=
  c1_document_shape envEx pEx [] [] (by decide)

/-- C2: a rule is invoked iff every one of its required parameter names
(declared parameters without a default) is a key of the canonical argument map;
when some required name is absent the rule is skipped silently — no error is
raised and nothing is appended to the output — regardless of what the rule's
body (`run`) would have returned. -/
theorem c2_admission {V : Type} (ps : List Param) (hv : Bool)
    (ks : List (String × V)) (acc : List String) :
    (∀ run, admitted (Rule.mk ps hv run) ks = true ↔
      ∀ n ∈ neededKeys ps, n ∈ mapKeys ks) ∧
    (∀ run, admitted (Rule.mk ps hv run) ks = false →
      processRule ks acc (Rule.mk ps hv run) = Except.ok acc) ∧
    (∀ run, admitted (Rule.mk ps hv run) ks = true →
      processRule ks acc (Rule.mk ps hv run) =
        match run (ruleArgsFun (Rule.mk ps hv run) ks) with
        | Except.error e => Except.error e
        | Except.ok none => Except.ok acc
        | Except.ok (some c) => Except.ok (acc ++ [pyStrip c])) :=
  ⟨fun _ => admitted_iff _ _,
   fun _ h => processRule_not_admitted _ _ _ h,
   fun _ h => processRule_admitted _ _ _ h⟩

/-- Witness for C2: a rule requiring `"x"` against a map with only `"y"` is
skipped with no error, although its body would have produced output. -/
theorem c2_admission_witness :
    admitted (Rule.mk [⟨"x", false⟩] false
      (fun _ => Except.ok (some "SHOULD NOT APPEAR"))) [("y", (1 : Nat))] = false ∧
    processRule [("y", (1 : Nat))] []
      (Rule.mk [⟨"x", false⟩] false (fun _ => Except.ok (some "SHOULD NOT APPEAR"))) =
      Except.ok [] := by
  have h := (c2_admission [⟨"x", false⟩] false [("y", (1 : Nat))] []).2.1
    (fun _ => Except.ok (some "SHOULD NOT APPEAR")) (by decide)
  exact ⟨by decide, h⟩

/-- C3: single extraction fails (the `[reference] = [...]` unpacking raises)
when the documentation text contains zero or more than one fenced reference
block, and with exactly one block it returns that block dedented via
`cleandoc`; it is a pure function of the documentation text, so repeated calls
return the identical result (the identity-keyed `lru_cache` of the source only
memoizes this recomputation, which is idempotent). -/
theorem c3_parse_reference (doc : String) :
    (∀ r, _parse_reference doc = Except.ok r ↔ _parse_reference_multi doc = [r]) ∧
    ((_parse_reference_multi doc).length ≠ 1 →
      _parse_reference doc = Except.error RuleErr.valueErr) := by
  constructor
  · intro r
    unfold _parse_reference
    cases hm : _parse_reference_multi doc with
    | nil => simp
    | cons a l =>
      cases l with
      | nil => simp
      | cons b m => simp
  · intro hlen
    unfold _parse_reference
    cases hm : _parse_reference_multi doc with
    | nil => rfl
    | cons a l =>
      cases l with
      | nil => rw [hm] at hlen; simp at hlen
      | cons b m => rfl

/-- Witness for C3: zero blocks fail; exactly one block extracts it dedented. -/
theorem c3_parse_reference_witness :
    _parse_reference "x" = Except.error RuleErr.valueErr ∧
    _parse_reference "a ```bibtex\n  @cite\n``` b" = Except.ok "@cite" := by
  constructor
  · exact (c3_parse_reference "x").2 (by decide)
  · exact ((c3_parse_reference "a ```bibtex\n  @cite\n``` b").1 "@cite").mpr (by decide)

theorem bindPositional_overflow {V : Type} :
    ∀ (P : List String) (args : List V) (kwargs : List (String × V)),
    P.length < args.length → ∃ e, bindPositional P args kwargs = Except.error e := by
  intro P
  induction P with
  | nil =>
    intro args kwargs h
    cases args with
    | nil => simp at h
    | cons a as_ => exact ⟨BindErr.tooManyPositional, rfl⟩
  | cons p ps ih =>
    intro args kwargs h
    cases args with
    | nil => simp at h
    | cons a as_ =>
      simp only [bindPositional]
      by_cases hk : (alookup kwargs p).isSome
      · rw [if_pos hk]
        exact ⟨BindErr.multipleValues p, rfl⟩
      · rw [if_neg hk]
        obtain ⟨e, he⟩ := ih as_ kwargs (by simpa using h)
        rw [he]
        exact ⟨e, rfl⟩

theorem checkKw_missing {V : Type} (P : List String) :
    ∀ kwargs : List (String × V), (∃ kv ∈ kwargs, kv.1 ∉ P) →
    ∃ e, checkKw P kwargs = Except.error e := by
  intro kwargs
  induction kwargs with
  | nil =>
    rintro ⟨kv, hmem, _⟩
    simp at hmem
  | cons kv rest ih =>
    rintro ⟨kw, hmem, hnot⟩
    obtain ⟨n, v⟩ := kv
    simp only [checkKw]
    by_cases hn : n ∈ P
    · rw [if_pos hn]
      apply ih
      rcases List.mem_cons.mp hmem with rfl | hr
      · exact absurd hn hnot
      · exact ⟨kw, hr, hnot⟩
    · rw [if_neg hn]
      exact ⟨BindErr.unexpectedKeyword n, rfl⟩

/-- C5: supplying more positional values than the canonical parameter list has
parameters, or a named argument whose name is not in that list, fails with a
binding error raised before any rule is evaluated — the same error results for
every rule list — and nothing is printed (the result is an error, not a
document). -/
theorem c5_binding_errors {V : Type} (P : List String) (args : List V)
    (kwargs : List (String × V))
    (h : P.length < args.length ∨ ∃ kv ∈ kwargs, kv.1 ∉ P) :
    ∃ e : BindErr, bindArgs P args kwargs = Except.error e ∧
      ∀ rules : List (Rule V),
        citation P rules args kwargs = Except.error (CiteErr.binding e) := by
  have hb : ∃ e, bindArgs P args kwargs = Except.error e := by
    rcases h with h | hkw
    · obtain ⟨e, he⟩ := bindPositional_overflow P args kwargs h
      exact ⟨e, by unfold bindArgs; rw [he]⟩
    · cases hp : bindPositional P args kwargs with
      | error e => exact ⟨e, by unfold bindArgs; rw [hp]⟩
      | ok pos =>
        obtain ⟨e, he⟩ := checkKw_missing P kwargs hkw
        refine ⟨e, ?_⟩
        unfold bindArgs
        rw [hp]
        dsimp only
        rw [he]
  obtain ⟨e, he⟩ := hb
  refine ⟨e, he, fun rules => ?_⟩
  unfold citation
  rw [he]

/-- Witness for C5: two positional values against a one-parameter list. -/
theorem c5_binding_errors_witness :
    ∃ e : BindErr, bindArgs ["terms"] [PyVal.vnone, PyVal.vnone] [] = Except.error e ∧
      citation ["terms"] (citation_rules envEx) [PyVal.vnone, PyVal.vnone] [] =
        Except.error (CiteErr.binding e) := by
  obtain ⟨e, he, hall⟩ := c5_binding_errors ["terms"] [PyVal.vnone, PyVal.vnone] []
    (Or.inl (by decide))
  exact ⟨e, he, hall (citation_rules envEx)⟩

/-- C6: an admitted rule declaring a VAR_KEYWORD parameter is invoked with the
entire canonical argument map; otherwise it is invoked with exactly the
restriction of the map to the rule's declared parameter names, with
declared-but-absent optional names simply omitted (the lookup the rule sees
returns `none` for them), so the rule's own default applies. -/
theorem c6_invocation_args {V : Type} (r : Rule V) (ks : List (String × V))
    (acc : List String) (h : admitted r ks = true) :
    (r.hasVar = true → processRule ks acc r =
      match r.run (alookup ks) with
      | Except.error e => Except.error e
      | Except.ok none => Except.ok acc
      | Except.ok (some c) => Except.ok (acc ++ [pyStrip c])) ∧
    (r.hasVar = false →
      ruleArgsFun r ks =
        (fun n => if n ∈ r.params.map Param.name then alookup ks n else none) ∧
      processRule ks acc r =
        match r.run (fun n => if n ∈ r.params.map Param.name then alookup ks n else none) with
        | Except.error e => Except.error e
        | Except.ok none => Except.ok acc
        | Except.ok (some c) => Except.ok (acc ++ [pyStrip c])) := by
  constructor
  · intro hv
    have harg : ruleArgsFun r ks = alookup ks := by
      simp [ruleArgsFun, hv]
    rw [processRule_admitted _ _ _ h, harg]
  · intro hv
    have harg : ruleArgsFun r ks =
        (fun n => if n ∈ r.params.map Param.name then alookup ks n else none) := by
      funext n
      simp only [ruleArgsFun, hv, Bool.false_eq_true, if_false]
      exact alookup_restrictArgs r.params ks n
    exact ⟨harg, by rw [processRule_admitted _ _ _ h, harg]⟩

/-- Witness for C6: a non-variadic rule with required `"x"` and optional `"z"`,
against a map with keys `"x"` and `"q"`: the invocation map omits the absent
optional `"z"` (so the default applies) and filters out the undeclared `"q"`. -/
theorem c6_invocation_args_witness :
    processRule [("x", (5 : Nat)), ("q", 7)] []
      (Rule.mk [⟨"x", false⟩, ⟨"z", true⟩] false
        (fun m => Except.ok (some (if (m "z").isSome || (m "q").isSome
          then "seen" else "noz")))) = Except.ok ["noz"] := by
  have h := (c6_invocation_args
    (Rule.mk [⟨"x", false⟩, ⟨"z", true⟩] false
      (fun m => Except.ok (some (if (m "z").isSome || (m "q").isSome
        then "seen" else "noz"))))
    [("x", (5 : Nat)), ("q", 7)] [] (by decide)).2 rfl
  rw [h.2]
  decide

/-- C7: multi extraction returns the list of all fenced reference blocks of the
documentation text, in document order (possibly empty), each dedented with
`cleandoc`; it is a pure function of the text, so repeated calls return the
identical list and positional indexing (first = primary, later = refinement) is
stable. -/
theorem c7_parse_reference_multi (pieces : List (String × String)) (tail : String)
    (hp : ∀ q ∈ pieces, (∀ ch ∈ q.1.data, ch ≠ '`') ∧ (∀ ch ∈ q.2.data, ch ≠ '`'))
    (ht : ∀ ch ∈ tail.data, ch ≠ '`') :
    _parse_reference_multi (buildRefDoc pieces tail) =
      pieces.map (fun q => cleandoc q.2) := by
  unfold _parse_reference_multi
  rw [findRefs_buildRefDoc pieces tail hp ht, List.map_map]
  rfl

/-- Witness for C7: a document with blocks `A` and `B` yields `["A", "B"]`. -/
theorem c7_parse_reference_multi_witness :
    _parse_reference_multi (buildRefDoc [("x ", "\n  A\n"), (" y ", "\n  B\n")] " z") =
      ["A", "B"] := by
  rw [c7_parse_reference_multi [("x ", "\n  A\n"), (" y ", "\n  B\n")] " z"
    (by decide) (by decide)]
  decide

/-- C8 as stated is false on the code: when the same logical parameter is
supplied both positionally and by name, `bind_partial` raises
`TypeError: multiple values for argument ...` — the canonical argument map is
never built and no value "wins".  Concrete counterexample:
`citation(v, terms=w)` against the parameter list `["terms", "solver"]`. -/
theorem c8_counterexample :
    bindArgs ["terms", "solver"] [PyVal.otherV] [("terms", PyVal.vnone)] =
      Except.error (BindErr.multipleValues "terms") ∧
    citation ["terms", "solver"] (citation_rules envEx) [PyVal.otherV]
      [("terms", PyVal.vnone)] =
      Except.error (CiteErr.binding (BindErr.multipleValues "terms")) := by
  exact ⟨by decide, by decide⟩

theorem bindPositional_duplicate {V : Type} :
    ∀ (P : List String) (args : List V) (kwargs : List (String × V)),
    (∃ kv ∈ kwargs, kv.1 ∈ P.take args.length) →
    ∃ e, bindPositional P args kwargs = Except.error e := by
  intro P
  induction P with
  | nil =>
    rintro args kwargs ⟨kv, _, hmem⟩
    simp at hmem
  | cons p ps ih =>
    intro args kwargs hex
    cases args with
    | nil =>
      obtain ⟨kv, _, hmem⟩ := hex
      simp at hmem
    | cons a as_ =>
      simp only [bindPositional]
      by_cases hk : (alookup kwargs p).isSome
      · rw [if_pos hk]
        exact ⟨BindErr.multipleValues p, rfl⟩
      · rw [if_neg hk]
        obtain ⟨kv, hin, hmem⟩ := hex
        simp only [List.length_cons, List.take_succ_cons] at hmem
        rcases List.mem_cons.mp hmem with heq | hr
        · exfalso
          apply hk
          have hkey : kv.1 ∈ mapKeys kwargs := List.mem_map_of_mem Prod.fst hin
          rw [← heq]
          exact (alookup_isSome kwargs kv.1).mpr hkey
        · obtain ⟨e, he⟩ := ih as_ kwargs ⟨kv, hin, hr⟩
          rw [he]
          exact ⟨e, rfl⟩

/-- C8 amended: when the caller supplies the same logical parameter both
positionally (it is among the positionally-assigned prefix of `P`) and by name,
the call fails with a binding error before any rule is evaluated; the canonical
argument map is not built and nothing is printed. -/
theorem c8_amended_duplicate_binding {V : Type} (P : List String) (args : List V)
    (kwargs : List (String × V))
    (h : ∃ kv ∈ kwargs, kv.1 ∈ P.take args.length) :
    ∃ e : BindErr, bindArgs P args kwargs = Except.error e ∧
      ∀ rules : List (Rule V),
        citation P rules args kwargs = Except.error (CiteErr.binding e) := by
  obtain ⟨e, he⟩ := bindPositional_duplicate P args kwargs h
  have hb : bindArgs P args kwargs = Except.error e := by
    unfold bindArgs
    rw [he]
  refine ⟨e, hb, fun rules => ?_⟩
  unfold citation
  rw [hb]

/-- Witness for the amended C8: `terms` supplied positionally and by name. -/
theorem c8_amended_duplicate_binding_witness :
    ∃ e : BindErr, bindArgs ["terms", "solver"] [PyVal.vnone]
        [("terms", PyVal.otherV)] = Except.error e ∧
      citation ["terms", "solver"] (citation_rules envEx) [PyVal.vnone]
        [("terms", PyVal.otherV)] = Except.error (CiteErr.binding e) := by
  obtain ⟨e, he, hall⟩ := c8_amended_duplicate_binding ["terms", "solver"]
    [PyVal.vnone] [("terms", PyVal.otherV)]
    ⟨("terms", PyVal.otherV), by simp, by decide⟩
  exact ⟨e, he, hall (citation_rules envEx)⟩

theorem runRulesAux_cons {V : Type} (ks : List (String × V)) (r : Rule V)
    (rs : List (Rule V)) (acc bs : List String)
    (h : runRulesAux ks (r :: rs) acc = Except.ok bs) :
    ∃ acc2, processRule ks acc r = Except.ok acc2 ∧
      runRulesAux ks rs acc2 = Except.ok bs := by
  simp only [runRulesAux] at h
  cases hp : processRule ks acc r with
  | error e => rw [hp] at h; cases h
  | ok acc2 => rw [hp] at h; exact ⟨acc2, rfl, h⟩

/-- C9: the first registered rule `_diffrax` declares no parameters, so it has
no required names and is admitted on every call; every successful invocation of
`citation` — including one with no arguments at all — therefore prints the
Diffrax/Equinox/JAX reference block (which is non-empty) as the first block
between the two banners, and the output is never the two banners alone. -/
theorem c9_diffrax_always_present (env : Env) (P : List String) (args : List PyVal)
    (kwargs : List (String × PyVal))
    (h : (citation P (citation_rules env) args kwargs).isOk = true) :
    ((citation_rules env).head?.map Rule.params = some [] ∧
      (citation_rules env).head?.map (fun r => neededKeys r.params) = some []) ∧
    ∃ s blocks doc, _diffrax env = Except.ok (some s) ∧
      citation P (citation_rules env) args kwargs = Except.ok doc ∧
      doc = joinSep "\n\n" ([_start] ++ (pyStrip s :: blocks) ++ [_end]) ∧
      pyStrip s ≠ "" := by
  refine ⟨⟨rfl, rfl⟩, ?_⟩
  unfold citation at h ⊢
  cases hb : bindArgs P args kwargs with
  | error e =>
    rw [hb] at h
    simp [Except.isOk, Except.toBool] at h
  | ok ks =>
    rw [hb] at h
    dsimp only at h ⊢
    cases hr : runRulesAux ks (citation_rules env) [] with
    | error e =>
      rw [hr] at h
      simp [Except.isOk, Except.toBool] at h
    | ok blocks =>
      rw [show citation_rules env =
        (⟨[], false, fun _ => _diffrax env⟩ : Rule PyVal) ::
          (citation_rules env).tail from rfl] at hr
      obtain ⟨acc2, hp, hrest⟩ := runRulesAux_cons _ _ _ _ _ hr
      have hacc2 : acc2 = [pyStrip (diffraxLit1 ++ _thesis_cite ++ diffraxLit2 ++
          env.jaxVersion ++ diffraxLit3)] := by
        have hproc : processRule ks []
            (⟨[], false, fun _ => _diffrax env⟩ : Rule PyVal) =
            Except.ok [pyStrip (diffraxLit1 ++ _thesis_cite ++ diffraxLit2 ++
              env.jaxVersion ++ diffraxLit3)] := rfl
        rw [hproc] at hp
        cases hp
        rfl
      subst hacc2
      obtain ⟨t, ht⟩ := runRulesAux_extends _ _ _ _ hrest
      refine ⟨diffraxLit1 ++ _thesis_cite ++ diffraxLit2 ++ env.jaxVersion ++
        diffraxLit3, t, joinSep "\n\n" ([_start] ++ blocks ++ [_end]),
        rfl, rfl, ?_, ?_⟩
      · rw [ht]
        simp
      · apply strip_ne_empty
        have h1 : hasNonWs diffraxLit1 = true := by decide
        simp [hasNonWs_append, h1]

/-- Witness for C9 at the no-argument call. -/
theorem c9_diffrax_always_present_witness :
    ((citation_rules envEx).head?.map Rule.params = some [] ∧
      (citation_rules envEx).head?.map (fun r => neededKeys r.params) = some []) ∧
    ∃ s blocks doc, _diffrax envEx = Except.ok (some s) ∧
      citation pEx (citation_rules envEx) [] [] = Except.ok doc ∧
      doc = joinSep "\n\n" ([_start] ++ (pyStrip s :: blocks) ++ [_end]) ∧
      pyStrip s ≠ "" :=
  c9_diffrax_always_present envEx pEx [] [] (by decide)

theorem containsChars_mid (x n z : List Char) :
    containsChars (x ++ (n ++ z)) n = true := by
  induction x with
  | nil =>
    cases hnz : n ++ z with
    | nil =>
      have hn : n = [] := (List.append_eq_nil.mp hnz).1
      simp [containsChars, hn]
    | cons c t =>
      simp only [containsChars]
      have hpre : n.isPrefixOf (c :: t) = true := by
        rw [← hnz, List.isPrefixOf_iff_prefix]
        exact List.prefix_append n z
      simp [hpre]
  | cons a x ih =>
    simp [containsChars, ih]

theorem containsSub_tracerMsg (name : String) :
    containsSub (tracerMsg name) name = true := by
  unfold containsSub tracerMsg
  rw [show (("`diffrax.citation` was called with " ++ name) ++
      " as a traced JAX value. Try running again without this, e.g. using `jax.disable_jit()`.").data =
      "`diffrax.citation` was called with ".data ++ (name.data ++
      " as a traced JAX value. Try running again without this, e.g. using `jax.disable_jit()`.".data)
    from by simp [data_append]]
  exact containsChars_mid _ _ _

/-- C4: when the non-SDE `PIDController` branch of `_pid_controller` must
branch on `stepsize_controller.pcoeff == 0` or `stepsize_controller.dcoeff == 0`
and the coefficient is a traced JAX value, `citation` raises the fatal
`RuntimeError` whose message names the offending field, and no document — not
even a partial one — is printed (the model returns `Except.error`, and in the
source the single `print` is the last statement of `citation`, after all rules
have run). -/
theorem c4_tracer_aborts (env : Env) (P : List String) (c : PIDC)
    (hmem : "stepsize_controller" ∈ P)
    (hsde : env.is_sde PyVal.vnone = false)
    (h : c.pcoeff = JaxVal.tracer ∨ c.dcoeff = JaxVal.tracer) :
    ∃ name, (name = "stepsize_controller.pcoeff" ∨
        name = "stepsize_controller.dcoeff") ∧
      containsSub (tracerMsg name) name = true ∧
      citation P (citation_rules env) [] [("stepsize_controller", PyVal.pid c)] =
        Except.error (CiteErr.rule (RuleErr.runtime (tracerMsg name))) := by
  have hbind : bindArgs P ([] : List PyVal)
      [("stepsize_controller", PyVal.pid c)] =
      Except.ok [("stepsize_controller", PyVal.pid c)] := by
    have h1 : bindPositional P ([] : List PyVal)
        [("stepsize_controller", PyVal.pid c)] = Except.ok [] := by
      cases P <;> rfl
    have h2 : checkKw P [("stepsize_controller", PyVal.pid c)] = Except.ok () := by
      simp [checkKw, hmem]
    unfold bindArgs
    rw [h1]
    dsimp only
    rw [h2]
    rfl
  have key : ∀ name, _pid_controller env (PyVal.pid c) PyVal.vnone =
      Except.error (RuleErr.runtime (tracerMsg name)) →
      citation P (citation_rules env) [] [("stepsize_controller", PyVal.pid c)] =
        Except.error (CiteErr.rule (RuleErr.runtime (tracerMsg name))) := by
    intro name hpid
    have hstep : runRulesAux [("stepsize_controller", PyVal.pid c)]
        (citation_rules env) [] =
        runRulesAux [("stepsize_controller", PyVal.pid c)]
          [⟨[⟨"stepsize_controller", false⟩, ⟨"terms", true⟩], false,
            fun m => req m "stepsize_controller"
              (fun v => _pid_controller env v ((m "terms").getD PyVal.vnone))⟩]
          [pyStrip (diffraxLit1 ++ _thesis_cite ++ diffraxLit2 ++
            env.jaxVersion ++ diffraxLit3)] := rfl
    have hp14 : processRule [("stepsize_controller", PyVal.pid c)]
        [pyStrip (diffraxLit1 ++ _thesis_cite ++ diffraxLit2 ++
          env.jaxVersion ++ diffraxLit3)]
        (⟨[⟨"stepsize_controller", false⟩, ⟨"terms", true⟩], false,
          fun m => req m "stepsize_controller"
            (fun v => _pid_controller env v ((m "terms").getD PyVal.vnone))⟩ :
          Rule PyVal) =
        Except.error (RuleErr.runtime (tracerMsg name)) := by
      have hcalc : processRule [("stepsize_controller", PyVal.pid c)]
          [pyStrip (diffraxLit1 ++ _thesis_cite ++ diffraxLit2 ++
            env.jaxVersion ++ diffraxLit3)]
          (⟨[⟨"stepsize_controller", false⟩, ⟨"terms", true⟩], false,
            fun m => req m "stepsize_controller"
              (fun v => _pid_controller env v ((m "terms").getD PyVal.vnone))⟩ :
            Rule PyVal) =
          match _pid_controller env (PyVal.pid c) PyVal.vnone with
          | Except.error e => Except.error e
          | Except.ok none => Except.ok [pyStrip (diffraxLit1 ++ _thesis_cite ++
              diffraxLit2 ++ env.jaxVersion ++ diffraxLit3)]
          | Except.ok (some s) => Except.ok ([pyStrip (diffraxLit1 ++ _thesis_cite ++
              diffraxLit2 ++ env.jaxVersion ++ diffraxLit3)] ++ [pyStrip s]) := rfl
      rw [hcalc, hpid]
    unfold citation
    rw [hbind]
    dsimp only
    rw [hstep]
    simp only [runRulesAux]
    rw [hp14]
  cases hpc : c.pcoeff with
  | tracer =>
    refine ⟨"stepsize_controller.pcoeff", Or.inl rfl, containsSub_tracerMsg _,
      key _ ?_⟩
    simp [_pid_controller, hsde, hpc, _no_tracer, eqZero]
  | conc x =>
    have hdc : c.dcoeff = JaxVal.tracer := by
      rcases h with h | h
      · rw [hpc] at h
        cases h
      · exact h
    refine ⟨"stepsize_controller.dcoeff", Or.inr rfl, containsSub_tracerMsg _,
      key _ ?_⟩
    simp [_pid_controller, hsde, hpc, hdc, _no_tracer, eqZero]

/-- Witness for C4: a `PIDController` whose `pcoeff` is a tracer. -/
theorem c4_tracer_aborts_witness :
    ∃ name, (name = "stepsize_controller.pcoeff" ∨
        name = "stepsize_controller.dcoeff") ∧
      containsSub (tracerMsg name) name = true ∧
      citation pEx (citation_rules envEx) []
        [("stepsize_controller", PyVal.pid ⟨JaxVal.tracer, JaxVal.conc 0⟩)] =
        Except.error (CiteErr.rule (RuleErr.runtime (tracerMsg name))) :=
  c4_tracer_aborts envEx pEx ⟨JaxVal.tracer, JaxVal.conc 0⟩ (by decide) rfl
    (Or.inl rfl)

/-- C10: in the Dopri8 branch of `_solvers`, for every `saveat` that is not
`None` the interpolant (second) reference is appended to the rule's output,
regardless of `saveat.dense` and of every `SubSaveAt.ts`, because the membership
test `saveat.dense or (subsaveat.ts is not None for ...)` has a generator object
as its second operand, and a generator object is always truthy. -/
theorem c10_dopri8_interpolant (env : Env) (s : Solver) (sv : SaveAtV)
    (r1 r2 : String) (hty : s.ty = SolverTy.dopri8)
    (href : _parse_reference_multi env.dopri8Doc = [r1, r2])
    (ha1 : containsSub r1 "Dormand" = true) (ha2 : containsSub r1 "Prince" = true)
    (ha3 : containsSub r2 "Bogacki" = true)
    (ha4 : containsSub r2 "Shampine" = true) :
    pyTruthy (pyOr (PyTruthObj.pyBool sv.dense)
      (PyTruthObj.pyGenerator sv.subsTs)) = true ∧
    _solvers env (PyVal.solverV s) (PyVal.saveatV sv) =
      Except.ok (some (dopri8Lit1 ++ r1 ++ dopri8Lit2 ++ r2)) := by
  have htruthy : pyTruthy (pyOr (PyTruthObj.pyBool sv.dense)
      (PyTruthObj.pyGenerator sv.subsTs)) = true := by
    cases hd : sv.dense <;> simp [pyOr, pyTruthy, hd]
  refine ⟨htruthy, ?_⟩
  unfold _solvers
  dsimp only
  rw [hty]
  rw [if_neg (by decide), if_neg (by decide), if_pos rfl, href]
  simp only [unpack2]
  simp [ha1, ha2, ha3, ha4, htruthy]

/-- Witness for C10: `dense = False` and no `SubSaveAt` has `ts` set, yet the
interpolant reference is appended. -/
theorem c10_dopri8_interpolant_witness :
    _solvers envD8 (PyVal.solverV ⟨SolverTy.dopri8, false, false, false, false, ""⟩)
      (PyVal.saveatV ⟨false, [false, false]⟩) =
      Except.ok (some (dopri8Lit1 ++ "Dormand and Prince 8(7)" ++ dopri8Lit2 ++
        "Bogacki and Shampine interpolation")) := by
  have h := c10_dopri8_interpolant envD8
    ⟨SolverTy.dopri8, false, false, false, false, ""⟩ ⟨false, [false, false]⟩
    "Dormand and Prince 8(7)" "Bogacki and Shampine interpolation"
    rfl (by decide) (by decide) (by decide) (by decide) (by decide)
  exact h.2

end Autocitation
